import Mathlib

/-!
Verification of the rss2pdf extraction/cleaning/layout pipeline.

This file is a shallow embedding of the pure core of `rss_to_pdf.py`
(class `RSSToPDFConverter`): the text normalizer (`clean_text`), the
markdown cleaner (`clean_markdown_content`), the image classifier
(`is_content_image`, `extract_base_image_url`), the per-article image
deduplication loop, the content-selector loop of
`extract_article_content`, and the document assembly of `create_pdf` /
`add_formatted_content_to_story`.

Strings are modelled as `List Char`.  Python regular-expression
substitutions are modelled by dedicated scanners, each implementing the
exact semantics of the one pattern the source uses (leftmost,
non-overlapping matches; greedy or lazy as the pattern demands).  The
scanners take an explicit fuel argument (always instantiated with the
input length, which each proof shows is sufficient) so that every
definition reduces by `decide`/`rfl`.  Network fetches, HTML parsing
(BeautifulSoup), html2text conversion and the PDF rendering backend are
external collaborators: where the embedded functions consume them, they
are abstracted as explicit oracle parameters, and DOM elements are
modelled by the data the code reads from them (their stripped visible
text and their `<img>` descendants).
-/

namespace RssToPdf

/-- Whitespace as matched by Python's regex class `\s` (ASCII range;
the pipeline's inputs to every `\s`-rule are ASCII because the
non-printable filter `[^\x20-\x7E\n\t]` runs first, and the raw string
methods `strip`/`split` are only applied to such cleaned text). -/
def isPySpace (c : Char) : Bool :=
  c = ' ' || c = '\t' || c = '\n' || c = '\r' || c = '\x0B' || c = '\x0C'

/-- Word characters as matched by Python's `\w` (ASCII range). -/
def isWordChar (c : Char) : Bool := c.isAlphanum || c = '_'

/-- Python `str.strip()`: drop leading and trailing whitespace. -/
def pyStrip (s : List Char) : List Char :=
  ((s.dropWhile fun c => isPySpace c).reverse.dropWhile fun c => isPySpace c).reverse

/-- Python `pat in s` substring test. -/
def hasSubstr (pat : List Char) : List Char → Bool
  | [] => pat.isEmpty
  | c :: cs => pat.isPrefixOf (c :: cs) || hasSubstr pat cs

/-- Python `str.lower()` (ASCII case folding; all concrete inputs in
this development are ASCII). -/
def pyLower (s : List Char) : List Char := s.map Char.toLower

/-- Python `str.replace(pat, rep)`: replace every non-overlapping
occurrence, scanning left to right.  Fueled; `fuel = length` suffices. -/
def pyReplace : Nat → List Char → List Char → List Char → List Char
  | 0, _, _, s => s
  | _ + 1, _, _, [] => []
  | fuel + 1, pat, rep, c :: cs =>
    if !pat.isEmpty && pat.isPrefixOf (c :: cs) then
      rep ++ pyReplace fuel pat rep ((c :: cs).drop pat.length)
    else
      c :: pyReplace fuel pat rep cs

/-- `pyReplace` at its canonical fuel. -/
def pyReplaceW (pat rep s : List Char) : List Char := pyReplace s.length pat rep s

/-- Close-delimiter search for the lazy one-line groups of
`\*\*(.*?)\*\*`, `\*(.*?)\*`, `_(.*?)_` and `` `(.*?)` ``: scan for the
earliest occurrence of the delimiter, failing at a newline (the group's
`.` does not match `\n`).  Returns the group and the text after the
closing delimiter. -/
def findCloseInLine (d : List Char) : List Char → Option (List Char × List Char)
  | [] => none
  | c :: cs =>
    if d.isPrefixOf (c :: cs) then some ([], (c :: cs).drop d.length)
    else if c = '\n' then none
    else
      match findCloseInLine d cs with
      | some (g, rest) => some (c :: g, rest)
      | none => none

/-- One regex pass `re.sub(d ++ "(.*?)" ++ d, group, s)` for a literal
delimiter `d` (the bold/italic/underline/inline-code unwrapping rules of
`clean_markdown_content`, source lines 458-461). -/
def subDelim : Nat → List Char → List Char → List Char
  | 0, _, s => s
  | _ + 1, _, [] => []
  | fuel + 1, d, c :: cs =>
    if d.isPrefixOf (c :: cs) then
      match findCloseInLine d ((c :: cs).drop d.length) with
      | some (g, rest) => g ++ subDelim fuel d rest
      | none => c :: subDelim fuel d cs
    else c :: subDelim fuel d cs

def subDelimW (d s : List Char) : List Char := subDelim s.length d s

/-- One regex pass `re.sub(r'\[([^\]]*)\]\([^)]*\)', r'\1', s)`
(link unwrapping, source line 462). -/
def subLinks : Nat → List Char → List Char
  | 0, s => s
  | _ + 1, [] => []
  | fuel + 1, c :: cs =>
    if c = '[' then
      match cs.dropWhile (fun x => x ≠ ']') with
      | ']' :: '(' :: r2 =>
        match r2.dropWhile (fun x => x ≠ ')') with
        | ')' :: r3 => cs.takeWhile (fun x => x ≠ ']') ++ subLinks fuel r3
        | _ => c :: subLinks fuel cs
      | _ => c :: subLinks fuel cs
    else c :: subLinks fuel cs

def subLinksW (s : List Char) : List Char := subLinks s.length s

/-- The flag passed along by the MULTILINE line-start scanners: after a
match is consumed, `^` can only fire again if the last consumed
character was a newline. -/
def wsEndsNl (marker : Char) (ws : List Char) : Bool :=
  match ws.getLast? with
  | some c => c = '\n'
  | none => marker = '\n'

/-- One regex pass `re.sub(r'^[-*•]\s*', '', s, flags=re.MULTILINE)`
(list-marker stripping, source line 463).  The Boolean tracks whether
the scanner sits at a line start (`^`); note the greedy `\s*` may
consume newlines, moving the anchor. -/
def subListMarkers : Nat → Bool → List Char → List Char
  | 0, _, s => s
  | _ + 1, _, [] => []
  | fuel + 1, atStart, c :: cs =>
    if atStart && (c = '-' || c = '*' || c = '•') then
      subListMarkers fuel (wsEndsNl c (cs.takeWhile isPySpace)) (cs.dropWhile isPySpace)
    else c :: subListMarkers fuel (c = '\n') cs

/-- One regex pass `re.sub(r'^\d+\.\s*', '', s, flags=re.MULTILINE)`
(numbered-list stripping, source line 464). -/
def subNumbered : Nat → Bool → List Char → List Char
  | 0, _, s => s
  | _ + 1, _, [] => []
  | fuel + 1, atStart, c :: cs =>
    if atStart && c.isDigit then
      match (c :: cs).dropWhile Char.isDigit with
      | '.' :: r =>
        subNumbered fuel (wsEndsNl '.' (r.takeWhile isPySpace)) (r.dropWhile isPySpace)
      | _ => c :: subNumbered fuel false cs
    else c :: subNumbered fuel (c = '\n') cs

/-- One regex pass `re.sub(r'^>\s*', '', s, flags=re.MULTILINE)`
(blockquote stripping, source line 465). -/
def subBlockquote : Nat → Bool → List Char → List Char
  | 0, _, s => s
  | _ + 1, _, [] => []
  | fuel + 1, atStart, c :: cs =>
    if atStart && c = '>' then
      subBlockquote fuel (wsEndsNl c (cs.takeWhile isPySpace)) (cs.dropWhile isPySpace)
    else c :: subBlockquote fuel (c = '\n') cs

/-- DOTALL search for the closing ``` of a fenced code block: the lazy
`(.*?)` group may span newlines. -/
def findFenceClose : List Char → Option (List Char × List Char)
  | [] => none
  | c :: cs =>
    if ['`', '`', '`'].isPrefixOf (c :: cs) then some ([], (c :: cs).drop 3)
    else
      match findFenceClose cs with
      | some (g, rest) => some (c :: g, rest)
      | none => none

/-- One regex pass
`re.sub(r'```(\w+)?\n(.*?)```', r'CODE BLOCK:\n\2', s, flags=re.DOTALL)`
(fenced-code rewriting, source line 468): an opening ``` followed by an
optional language tag and a newline, rewritten to the `CODE BLOCK:`
marker with the tag dropped. -/
def subFence : Nat → List Char → List Char
  | 0, s => s
  | _ + 1, [] => []
  | fuel + 1, c :: cs =>
    if ['`', '`', '`'].isPrefixOf (c :: cs) then
      match ((c :: cs).drop 3).dropWhile isWordChar with
      | '\n' :: body =>
        match findFenceClose body with
        | some (g, rest) =>
          ('C' :: 'O' :: 'D' :: 'E' :: ' ' :: 'B' :: 'L' :: 'O' :: 'C' :: 'K' :: ':' :: '\n' :: g)
            ++ subFence fuel rest
        | none => c :: subFence fuel cs
      | _ => c :: subFence fuel cs
    else c :: subFence fuel cs

def subFenceW (s : List Char) : List Char := subFence s.length s

/-- Characters kept by the non-printable filter
`re.sub(r'[^\x20-\x7E\n\t]', '', s)` (source lines 392 and 487). -/
def isPrintableKeep (c : Char) : Bool :=
  (0x20 ≤ c.toNat && c.toNat ≤ 0x7E) || c = '\n' || c = '\t'

/-- Head-of-list whitespace test, used by the run-pattern scanners. -/
def headIsWs : List Char → Bool
  | [] => false
  | c :: _ => isPySpace c

/-- One regex pass `re.sub(r'\s+!+\s+', ' ', s)` (isolated exclamation
marks, source lines 395 and 490).  Since none of the three runs can
borrow characters from its neighbours, the match is the greedy
whitespace run, then the bang run, then the greedy whitespace run. -/
def subIsolatedBangs : Nat → List Char → List Char
  | 0, s => s
  | _ + 1, [] => []
  | fuel + 1, c :: cs =>
    if isPySpace c then
      let r1 := (c :: cs).dropWhile isPySpace
      let r2 := r1.dropWhile (fun x => x = '!')
      if !(r1.takeWhile (fun x => x = '!')).isEmpty && headIsWs r2 then
        ' ' :: subIsolatedBangs fuel (r2.dropWhile isPySpace)
      else c :: subIsolatedBangs fuel cs
    else c :: subIsolatedBangs fuel cs

def subIsolatedBangsW (s : List Char) : List Char := subIsolatedBangs s.length s

/-- One regex pass `re.sub(r'!{2,}', '!', s)` (source lines 396 and
491). -/
def subMultiBangs : Nat → List Char → List Char
  | 0, s => s
  | _ + 1, [] => []
  | fuel + 1, c :: cs =>
    if c = '!' then
      match cs with
      | '!' :: _ => '!' :: subMultiBangs fuel (cs.dropWhile (fun x => x = '!'))
      | _ => c :: subMultiBangs fuel cs
    else c :: subMultiBangs fuel cs

def subMultiBangsW (s : List Char) : List Char := subMultiBangs s.length s

/-- Character class `[^\w\s\.\,\!\?\-\(\)]` of the artifact-stripping
rule at source line 397. -/
def isJunkChar (c : Char) : Bool :=
  !(isWordChar c || isPySpace c || c = '.' || c = ',' || c = '!' || c = '?' ||
    c = '-' || c = '(' || c = ')')

/-- One regex pass `re.sub(r'\s+[^\w\s\.\,\!\?\-\(\)]+\s+', ' ', s)`
(source line 397). -/
def subJunkRun : Nat → List Char → List Char
  | 0, s => s
  | _ + 1, [] => []
  | fuel + 1, c :: cs =>
    if isPySpace c then
      let r1 := (c :: cs).dropWhile isPySpace
      let r2 := r1.dropWhile isJunkChar
      if !(r1.takeWhile isJunkChar).isEmpty && headIsWs r2 then
        ' ' :: subJunkRun fuel (r2.dropWhile isPySpace)
      else c :: subJunkRun fuel cs
    else c :: subJunkRun fuel cs

def subJunkRunW (s : List Char) : List Char := subJunkRun s.length s

/-- One regex pass `re.sub(r'\n\s*\n', '\n\n', s)` (blank-line
collapsing, source line 494): the greedy `\s*` backtracks to the last
newline of the whitespace run following the first `\n`. -/
def subBlankLines : Nat → List Char → List Char
  | 0, s => s
  | _ + 1, [] => []
  | fuel + 1, c :: cs =>
    if c = '\n' then
      let run := cs.takeWhile isPySpace
      if run.any (fun x => x = '\n') then
        '\n' :: '\n' ::
          subBlankLines fuel
            ((run.reverse.takeWhile (fun x => x ≠ '\n')).reverse ++ cs.dropWhile isPySpace)
      else '\n' :: subBlankLines fuel cs
    else c :: subBlankLines fuel cs

def subBlankLinesW (s : List Char) : List Char := subBlankLines s.length s

/-- Regex pass `re.sub(r'\s+', ' ', s)` (source line 400), implemented
with a previous-was-whitespace flag (structural, needs no fuel). -/
def wsCollapseGo (prevWs : Bool) : List Char → List Char
  | [] => []
  | c :: cs =>
    if isPySpace c then
      if prevWs then wsCollapseGo true cs else ' ' :: wsCollapseGo true cs
    else c :: wsCollapseGo false cs

def wsCollapse (s : List Char) : List Char := wsCollapseGo false s

/-- Regex pass `re.sub(r'[ \t]+', ' ', s)` (source line 495). -/
def spaceTabCollapseGo (prevWs : Bool) : List Char → List Char
  | [] => []
  | c :: cs =>
    if c = ' ' || c = '\t' then
      if prevWs then spaceTabCollapseGo true cs else ' ' :: spaceTabCollapseGo true cs
    else c :: spaceTabCollapseGo false cs

def spaceTabCollapse (s : List Char) : List Char := spaceTabCollapseGo false s

/-- Embedding of `RSSToPDFConverter.clean_text` (source lines 360-403):
HTML-entity replacement, escaped-punctuation collapsing, backslash
removal, the non-printable filter, exclamation-mark artifact rules, the
stray-symbol-run rule, whitespace collapsing, and a final strip. -/
def clean_text (text : List Char) : List Char :=
  if text.isEmpty then []
  else
    let t01 := pyReplaceW "&quot;".toList "\"".toList text
    let t02 := pyReplaceW "&ldquo;".toList "\"".toList t01
    let t03 := pyReplaceW "&rdquo;".toList "\"".toList t02
    let t04 := pyReplaceW "&lsquo;".toList "'".toList t03
    let t05 := pyReplaceW "&rsquo;".toList "'".toList t04
    let t06 := pyReplaceW "&apos;".toList "'".toList t05
    let t07 := pyReplaceW "&amp;".toList "&".toList t06
    let t08 := pyReplaceW "&lt;".toList "<".toList t07
    let t09 := pyReplaceW "&gt;".toList ">".toList t08
    let t10 := pyReplaceW "&nbsp;".toList " ".toList t09
    let t11 := pyReplaceW "\\\"".toList "\"".toList t10
    let t12 := pyReplaceW "\\'".toList "'".toList t11
    let t13 := pyReplaceW "\\\\".toList "\\".toList t12
    let t14 := pyReplaceW "\\.".toList ".".toList t13
    let t15 := pyReplaceW "\\,".toList ",".toList t14
    let t16 := pyReplaceW "\\!".toList "!".toList t15
    let t17 := pyReplaceW "\\?".toList "?".toList t16
    let t18 := pyReplaceW "\\".toList [] t17
    let t19 := t18.filter isPrintableKeep
    let t20 := subIsolatedBangsW t19
    let t21 := subMultiBangsW t20
    let t22 := subJunkRunW t21
    pyStrip (wsCollapse t22)

/-- Embedding of `RSSToPDFConverter.clean_markdown_content` (source
lines 452-498): markdown-marker stripping (bold, italic, underline,
inline code, links, list markers, numbered lists, blockquotes), the
fenced-code rewrite, escaped-character collapsing, backslash removal,
the non-printable filter, exclamation-mark artifact rules, blank-line
collapsing, space/tab collapsing, and a final strip. -/
def clean_markdown_content (markdown_content : List Char) : List Char :=
  if markdown_content.isEmpty then []
  else
    let c01 := subDelimW "**".toList markdown_content
    let c02 := subDelimW "*".toList c01
    let c03 := subDelimW "_".toList c02
    let c04 := subDelimW "`".toList c03
    let c05 := subLinksW c04
    let c06 := subListMarkers c05.length true c05
    let c07 := subNumbered c06.length true c06
    let c08 := subBlockquote c07.length true c07
    let c09 := subFenceW c08
    let c10 := pyReplaceW "\\\"".toList "\"".toList c09
    let c11 := pyReplaceW "\\'".toList "'".toList c10
    let c12 := pyReplaceW "\\\\".toList "\\".toList c11
    let c13 := pyReplaceW "\\.".toList ".".toList c12
    let c14 := pyReplaceW "\\,".toList ",".toList c13
    let c15 := pyReplaceW "\\!".toList "!".toList c14
    let c16 := pyReplaceW "\\?".toList "?".toList c15
    let c17 := pyReplaceW "\\".toList [] c16
    let c18 := c17.filter isPrintableKeep
    let c19 := subIsolatedBangsW c18
    let c20 := subMultiBangsW c19
    let c21 := subBlankLinesW c20
    pyStrip (spaceTabCollapse c21)

/-! ## Image classifier (`is_content_image`, source lines 500-538) -/

/-- Skip-pattern table of `is_content_image` (source lines 503-511). -/
def skip_patterns : List (List Char) :=
  ["avatar", "profile", "user", "author", "writer", "contributor",
   "icon", "logo", "button", "badge", "emoji", "social",
   "thumb", "thumbnail", "small", "tiny", "mini",
   "36x36", "48x48", "64x64", "128x128",
   "w_36", "w_48", "w_64", "h_36", "h_48", "h_64",
   "substack.com/@",
   "bucketeer-e05bbc84-baa3-437e-9518-adb32be77984.s3.amazonaws.com"].map String.toList

/-- Small-dimension CDN tokens checked on the raw URL (source line 522). -/
def small_sizes : List (List Char) :=
  ["w_36", "w_48", "w_64", "h_36", "h_48", "h_64"].map String.toList

/-- Large-dimension CDN tokens checked on the raw URL (source line 534). -/
def large_sizes : List (List Char) :=
  ["w_520", "w_1456", "w_1024", "w_800", "h_272", "h_1369", "h_1100"].map String.toList

/-- Embedding of `RSSToPDFConverter.is_content_image` (source lines
500-538): decide whether a discovered image is article content or
decoration. -/
def is_content_image (src alt : List Char) : Bool :=
  let src_lower := pyLower src
  let alt_lower := pyLower alt
  if skip_patterns.any (fun p => hasSubstr p src_lower || hasSubstr p alt_lower) then false
  else if small_sizes.any (fun p => hasSubstr p src) then false
  else if hasSubstr "substack.com/@".toList src ||
          hasSubstr "bucketeer-e05bbc84-baa3-437e-9518-adb32be77984.s3.amazonaws.com".toList src
       then false
  else if 3 < alt.length then true
  else if large_sizes.any (fun p => hasSubstr p src) then true
  else true

/-! ## Base-image-URL extraction (`extract_base_image_url`, source
lines 540-564) -/

/-- Character class `[a-f0-9-]` of the Substack image-id patterns. -/
def isIdChar (c : Char) : Bool := ('a' ≤ c && c ≤ 'f') || c.isDigit || c = '-'

/-- Attempt to match `_\d+x\d+\.(png|jpg|jpeg)` at the head of the
list; on success return the `\d+x\d+` dimension text. -/
def matchDimsExt : List Char → Option (List Char)
  | '_' :: r1 =>
    if (r1.takeWhile Char.isDigit).isEmpty then none
    else
      match r1.dropWhile Char.isDigit with
      | 'x' :: r2 =>
        if (r2.takeWhile Char.isDigit).isEmpty then none
        else
          match r2.dropWhile Char.isDigit with
          | '.' :: r3 =>
            if "png".toList.isPrefixOf r3 || "jpg".toList.isPrefixOf r3 ||
               "jpeg".toList.isPrefixOf r3 then
              some (r1.takeWhile Char.isDigit ++ 'x' :: r2.takeWhile Char.isDigit)
            else none
          | _ => none
      | _ => none
  | _ => none

/-- Greedy-with-backtracking group length for `([a-f0-9-]+)` before
`_\d+x\d+\.ext`: try the longest prefix of the id-character run first,
as the regex engine does.  Returns (group, dimensions). -/
def tryIdLen : Nat → List Char → List Char → Option (List Char × List Char)
  | 0, _, _ => none
  | k + 1, run, tail =>
    match matchDimsExt (run.drop (k + 1) ++ tail) with
    | some dims => some (run.take (k + 1), dims)
    | none => tryIdLen k run tail

/-- Embedding of
`re.search(r'([a-f0-9-]+)_\d+x\d+\.(png|jpg|jpeg)', url)` (source line
549): leftmost match wins; at each start the group is greedy.  Returns
(image id, dimension text). -/
def searchImageId : Nat → List Char → Option (List Char × List Char)
  | 0, _ => none
  | _ + 1, [] => none
  | fuel + 1, c :: cs =>
    if isIdChar c then
      let run := (c :: cs).takeWhile isIdChar
      match tryIdLen run.length run ((c :: cs).dropWhile isIdChar) with
      | some r => some r
      | none => searchImageId fuel cs
    else searchImageId fuel cs

/-- Embedding of `re.search(r'([a-f0-9-]{20,})', url)` (source line
555): first position whose maximal id-character run has length at least
20; the greedy quantifier takes the whole run. -/
def searchLongId : Nat → List Char → Option (List Char)
  | 0, _ => none
  | _ + 1, [] => none
  | fuel + 1, c :: cs =>
    if isIdChar c then
      let run := (c :: cs).takeWhile isIdChar
      if 20 ≤ run.length then some run else searchLongId fuel cs
    else searchLongId fuel cs

/-- One regex pass `re.sub(r'[?&]' ++ k ++ '=\d+', '', s)` for
`k ∈ {w, h}` (source lines 560-561). -/
def stripSizeNum : Nat → Char → List Char → List Char
  | 0, _, s => s
  | _ + 1, _, [] => []
  | fuel + 1, k, c :: cs =>
    if c = '?' || c = '&' then
      match cs with
      | k2 :: '=' :: r =>
        if k2 = k && !(r.takeWhile Char.isDigit).isEmpty then
          stripSizeNum fuel k (r.dropWhile Char.isDigit)
        else c :: stripSizeNum fuel k cs
      | _ => c :: stripSizeNum fuel k cs
    else c :: stripSizeNum fuel k cs

/-- One regex pass `re.sub(r'[?&]' ++ lit, '', s)` for the literal
crop tokens (source lines 562-563). -/
def stripSizeLit : Nat → List Char → List Char → List Char
  | 0, _, s => s
  | _ + 1, _, [] => []
  | fuel + 1, lit, c :: cs =>
    if (c = '?' || c = '&') && lit.isPrefixOf cs then
      stripSizeLit fuel lit (cs.drop lit.length)
    else c :: stripSizeLit fuel lit cs

/-- The four query-parameter strips of source lines 560-563, in source
order (`w=`, `h=`, `c_limit`, `c_fill`). -/
def stripSizeParams (url : List Char) : List Char :=
  let u1 := stripSizeNum url.length 'w' url
  let u2 := stripSizeNum u1.length 'h' u1
  let u3 := stripSizeLit u2.length "c_limit".toList u2
  stripSizeLit u3.length "c_fill".toList u3

/-- Embedding of `RSSToPDFConverter.extract_base_image_url` (source
lines 540-564): for Substack CDN URLs, a synthetic key from the
embedded image id (falling through to the generic strip when neither
id pattern matches); otherwise the URL with size/crop query parameters
removed. -/
def extract_base_image_url (url : List Char) : List Char :=
  if url.isEmpty then []
  else if hasSubstr "substackcdn.com".toList url then
    match searchImageId url.length url with
    | some (iid, _) => "image_id_".toList ++ iid
    | none =>
      match searchLongId url.length url with
      | some u => "unique_".toList ++ u
      | none => stripSizeParams url
  else stripSizeParams url

/-! ## Per-article image deduplication (source lines 664-683) -/

/-- The image-collection loop of `extract_article_content` (source
lines 672-683): keep images with an absolute `src` that pass
`is_content_image` and whose derived base key has not been seen yet,
in discovery order.  `seen` models the `seen_urls` set. -/
def collectImagesGo (seen : List (List Char)) :
    List (List Char × List Char) → List (List Char × List Char)
  | [] => []
  | (src, alt) :: rest =>
    if !src.isEmpty && "http".toList.isPrefixOf src then
      if is_content_image src alt then
        if extract_base_image_url src ∈ seen then collectImagesGo seen rest
        else (src, alt) :: collectImagesGo (extract_base_image_url src :: seen) rest
      else collectImagesGo seen rest
    else collectImagesGo seen rest

/-- Image collection for one article, starting from an empty seen-set
(source lines 665-666). -/
def collectImages (imgs : List (List Char × List Char)) : List (List Char × List Char) :=
  collectImagesGo [] imgs

/-! ## Content-selector loop of `extract_article_content` (source
lines 602-658).

HTML parsing is an external collaborator: a DOM element is modelled by
the data the loop reads from it — its visible text after the
navigation/header/footer/aside and class-based subtree stripping
(source lines 635-643), and its `<img>` descendants.  A parsed page is
a selector oracle plus an optional `<body>` element. -/

/-- A DOM element as consumed by the selection loop: `text` is the
stripped visible text `get_text(separator='\n', strip=True)` after the
subtree removal, `imgs` the `(src, alt)` pairs of its `<img>`
descendants. -/
structure Elem where
  text : List Char
  imgs : List (List Char × List Char)
deriving DecidableEq, Repr

/-- A parsed page: `selectOne` models `soup.select_one`, `body` models
`soup.find('body')`. -/
structure Soup where
  selectOne : String → Option Elem
  body : Option Elem

/-- The fixed selector-candidate list of source lines 603-626,
verbatim (including its duplicate entries). -/
def content_selectors : List String :=
  ["article", ".post-content", ".entry-content", ".content", ".post-body",
   "main", ".main-content", "#content", ".article-content", ".post",
   ".entry", ".blog-post", ".post-text", ".entry-text", ".post-body",
   ".content-body", ".article-body", ".post-content", ".entry-content",
   ".blog-entry", ".post-entry", "#primary"]

/-- The selector loop of source lines 628-646, carrying the `content`
and `content_elem` variables: `content_elem` is reassigned by every
iteration (also to `None` on a failed selector), `content` only when a
selector matches; a match longer than 500 characters breaks with
`used_selector` set. -/
def selLoopGo (soup : Soup) :
    Option (List Char) → Option Elem → List String →
    Option (List Char) × Option Elem × Option String
  | content, celem, [] => (content, celem, none)
  | content, _, s :: rest =>
    match soup.selectOne s with
    | some e =>
      if 500 < e.text.length then (some e.text, some e, some s)
      else selLoopGo soup (some e.text) (some e) rest
    | none => selLoopGo soup content none rest

/-- Content selection including the body fallback of source lines
648-658: the fallback runs only when `content` is falsy (`None` or
empty), and leaves everything unchanged when the page has no body. -/
def selectContent (soup : Soup) :
    Option (List Char) × Option Elem × Option String :=
  let r := selLoopGo soup none none content_selectors
  if r.1 = none ∨ r.1 = some [] then
    match soup.body with
    | some b => (some b.text, some b, some "body")
    | none => r
  else r

/-! ## Line classification and document assembly (source lines
727-802, 980-1171).

The rendering backend (ReportLab) is external; a document is the
ordered sequence of layout blocks the code appends to `story`.  Image
download and decoding (`add_image_to_story`, source lines 836-978) is
network I/O: it is abstracted by an oracle `imgOk` deciding whether a
given image is successfully fetched (through the primary URL or any of
the alternate CDN reconstructions); on success the code appends
Spacer/Image/Spacer, on failure the text placeholder of source line
978.  Likewise `extract_article_content` as a whole is abstracted in
`create_pdf` by a `fetch` oracle returning the cleaned text and the
collected images, or `none` for any failure. -/

/-- One layout block appended to the ReportLab `story`. -/
inductive Block where
  | para (text : List Char) (style : String)
  | spacer (w h : Nat)
  | pageBreak
  | image (url : List Char) (alt : List Char)
deriving DecidableEq, Repr

/-- One RSS entry as produced by `fetch_rss_feed` (source lines
347-352). -/
structure Article where
  title : List Char
  link : List Char
  published : List Char
  author : List Char
deriving DecidableEq, Repr

/-- Embedding of `RSSToPDFConverter.is_heading` (source lines
1071-1098). -/
def is_heading (line0 : List Char) : Bool :=
  let line := pyStrip line0
  let hs := line.takeWhile fun c => c = '#'
  (!hs.isEmpty && hs.length ≤ 6 && headIsWs (line.dropWhile fun c => c = '#')) ||
  (match line with
   | c1 :: ':' :: _ => c1 = 'Q' || c1 = 'q'
   | _ => false) ||
  (line.any Char.isAlpha && line.all (fun c => !c.isAlpha || c.isUpper) &&
    3 < line.length && line.length < 100) ||
  (match line with
   | c :: rest =>
     c.isUpper && !rest.dropLast.isEmpty &&
     rest.dropLast.all (fun x => x.isAlpha || isPySpace x) &&
     (rest.getLast? = some ':' || rest.getLast? = some '?' || rest.getLast? = some '.')
   | [] => false)

/-- Embedding of `RSSToPDFConverter.is_list_item` (source lines
1100-1108). -/
def is_list_item (line : List Char) : Bool :=
  let clean := pyReplaceW "\\".toList [] line
  "- ".toList.isPrefixOf clean || "* ".toList.isPrefixOf clean ||
  "• ".toList.isPrefixOf clean ||
  (!(clean.takeWhile Char.isDigit).isEmpty &&
    match clean.dropWhile Char.isDigit with
    | '.' :: _ => true
    | _ => false)

/-- Embedding of `RSSToPDFConverter.add_heading_to_story` (source lines
1114-1140): returns the blocks appended to the story. -/
def add_heading_to_story (line : List Char) : List Block :=
  let clean0 := pyStrip line
  let startsHash := clean0.head? = some '#'
  let level := if startsHash then (clean0.takeWhile fun c => c = '#').length else 0
  let clean1 :=
    if startsHash then (clean0.dropWhile fun c => c = '#').dropWhile isPySpace else clean0
  let clean := pyStrip clean1
  if clean.isEmpty then []
  else
    let style :=
      if 3 ≤ level || "###".toList.isPrefixOf line then "section"
      else if 2 ≤ level || "##".toList.isPrefixOf line then "subtitle"
      else "section"
    [Block.para clean style, Block.spacer 1 8]

/-- Embedding of `RSSToPDFConverter.add_quote_to_story` (source lines
1158-1171).  The source computes two candidate strips from `line` and
immediately overwrites them; only the trailing-quote strip of line 1163
(applied to the original `line`) survives into `clean_line`, so the
leading `>` marker is kept. -/
def add_quote_to_story (line : List Char) : List Block :=
  let t :=
    match line.reverse with
    | q :: rest =>
      if q = '"' || q = '\'' then (rest.dropWhile isPySpace).reverse else line
    | [] => line
  let clean := pyStrip t
  if clean.isEmpty then [] else [Block.para clean "quote", Block.spacer 1 8]

/-- Embedding of `RSSToPDFConverter.add_list_item_to_story` (source
lines 1142-1156). -/
def add_list_item_to_story (line : List Char) : List Block :=
  let c0 := pyReplaceW "\\".toList [] line
  let c1 :=
    match c0 with
    | c :: cs => if c = '-' || c = '*' || c = '•' then cs.dropWhile isPySpace else c0
    | [] => c0
  let c2 :=
    if !(c1.takeWhile Char.isDigit).isEmpty then
      match c1.dropWhile Char.isDigit with
      | '.' :: r => r.dropWhile isPySpace
      | _ => c1
    else c1
  let clean := pyStrip c2
  if clean.isEmpty then [] else [Block.para ("• ".toList ++ clean) "list"]

/-- Embedding of `RSSToPDFConverter.add_code_block_to_story` (source
lines 804-834). -/
def add_code_block_to_story (lines : List (List Char)) : List Block :=
  if lines.isEmpty then []
  else [Block.para ("<b>Code Block:</b><br/>".toList ++ List.intercalate ['\n'] lines) "code"]

/-- Embedding of `RSSToPDFConverter.add_image_to_story` (source lines
836-978) at the story level: download/decoding is the external oracle
`imgOk`; success appends Spacer/Image/Spacer (lines 912-914, or
963-965 through an alternate CDN URL), failure the placeholder
paragraph of line 978. -/
def add_image_to_story (imgOk : List Char → List Char → Bool) (url alt : List Char) :
    List Block :=
  if imgOk url alt then [Block.spacer 1 16, Block.image url alt, Block.spacer 1 16]
  else
    [Block.para ("[Image: ".toList ++
        (if !alt.isEmpty then alt else "Article image".toList) ++
        " - Failed to load]".toList) "image"]

/-- Embedding of `re.match(r'!\[([^\]]*)\]\(([^)]*)\)', line)` (source
line 1034): parse markdown image syntax at the start of a line. -/
def parseMdImage (line : List Char) : Option (List Char × List Char) :=
  match line with
  | '!' :: '[' :: r1 =>
    (match r1.dropWhile (fun x => x ≠ ']') with
     | ']' :: '(' :: r2 =>
       (match r2.dropWhile (fun x => x ≠ ')') with
        | ')' :: _ => some (r1.takeWhile (fun x => x ≠ ']'), r2.takeWhile (fun x => x ≠ ')'))
        | _ => none)
     | _ => none)
  | _ => none

/-- Corrupted-Substack-URL repair of source lines 1041-1049: rebuild a
CDN URL from the embedded image id and dimensions. -/
def fixCorruptedUrl (url : List Char) : List Char :=
  if hasSubstr "substackcdn.com".toList url && hasSubstr "$s!".toList url then
    match searchImageId url.length url with
    | some (iid, dims) =>
      ("https://substackcdn.com/image/fetch/w_1456,c_limit,f_auto,q_auto:good,fl_progressive:steep/https://substack-post-media.s3.amazonaws.com/public/images/".toList
        ++ iid ++ '_' :: dims ++ ".png".toList)
    | none => url
  else url

/-- Image-interleaving trigger of source lines 1020-1022: the line
mentions some stored image's alt text, or a generic image word. -/
def imageTrigger (images : List (List Char × List Char)) (line : List Char) : Bool :=
  images.any (fun p => !p.2.isEmpty && hasSubstr (pyLower p.2) (pyLower line)) ||
  hasSubstr "image".toList (pyLower line) || hasSubstr "figure".toList (pyLower line) ||
  hasSubstr "chart".toList (pyLower line) || hasSubstr "graph".toList (pyLower line)

/-- The line loop of `add_formatted_content_to_story` (source lines
986-1069), carrying the `current_code_block` buffer and `image_index`.
Note the buffer is only ever appended to when already non-empty (source
lines 998-1000), and a `CODE BLOCK:` marker only flushes (lines
992-996), so the buffer in fact never fills — the embedding mirrors the
code as written. -/
def fmtGo (imgOk : List Char → List Char → Bool)
    (images : List (List Char × List Char)) :
    List (List Char) → Nat → List (List Char) → List Block
  | buf, idx, [] =>
    (if !buf.isEmpty then add_code_block_to_story buf else []) ++
      ((images.drop idx).flatMap fun p => add_image_to_story imgOk p.1 p.2)
  | buf, idx, l :: rest =>
    let line := pyStrip l
    if line.isEmpty then fmtGo imgOk images buf idx rest
    else if "CODE BLOCK:".toList.isPrefixOf line then
      (if !buf.isEmpty then add_code_block_to_story buf else []) ++ fmtGo imgOk images [] idx rest
    else if !buf.isEmpty then fmtGo imgOk images (buf ++ [line]) idx rest
    else if is_heading line then add_heading_to_story line ++ fmtGo imgOk images buf idx rest
    else if line.head? = some '>' then add_quote_to_story line ++ fmtGo imgOk images buf idx rest
    else if is_list_item line then add_list_item_to_story line ++ fmtGo imgOk images buf idx rest
    else if !images.isEmpty && idx < images.length && imageTrigger images line then
      (match images.get? idx with
       | some p => add_image_to_story imgOk p.1 p.2
       | none => []) ++ fmtGo imgOk images buf (idx + 1) rest
    else if "![".toList.isPrefixOf line && hasSubstr "](".toList line then
      (match parseMdImage line with
       | some (alt, url) => add_image_to_story imgOk (fixCorruptedUrl url) alt
       | none => []) ++ fmtGo imgOk images buf idx rest
    else Block.para line "content" :: Block.spacer 1 8 :: fmtGo imgOk images buf idx rest

/-- Embedding of `RSSToPDFConverter.add_formatted_content_to_story`
(source lines 980-1069): split the cleaned content on newlines and run
the classification loop. -/
def add_formatted_content_to_story (imgOk : List Char → List Char → Bool)
    (content : List Char) (images : List (List Char × List Char)) : List Block :=
  fmtGo imgOk images [] 0 (content.splitOn '\n')

/-- The placeholder paragraph text of source line 782. -/
def contentUnavailable : List Char := "Content could not be extracted.".toList

/-- The title/metadata blocks of one article (source lines 765-775):
the author and published lines are emitted only when truthy. -/
def articleMetaBlocks (a : Article) : List Block :=
  [Block.para a.title "subtitle", Block.spacer 1 8] ++
  (if !a.author.isEmpty then [Block.para ("By: ".toList ++ a.author) "meta"] else []) ++
  (if !a.published.isEmpty then [Block.para ("Published: ".toList ++ a.published) "meta"] else []) ++
  [Block.para ("URL: ".toList ++ a.link) "meta", Block.spacer 1 12]

/-- The story blocks of one article in the loop of `create_pdf`
(source lines 762-783): title, metadata, then formatted content or the
placeholder.  `fetch` abstracts `extract_article_content` together with
the `current_article_images` it stores; the stale images a failed
extraction leaves behind are never read, because
`add_formatted_content_to_story` only runs directly after a successful
extraction (guards at source lines 665 and 779), so passing the images
alongside the text is observationally equal to the instance attribute. -/
def articleBlocks
    (fetch : Article → Option (List Char × List (List Char × List Char)))
    (imgOk : List Char → List Char → Bool) (a : Article) : List Block :=
  articleMetaBlocks a ++
  (match fetch a with
   | some (c, imgs) =>
     if !c.isEmpty then add_formatted_content_to_story imgOk c imgs
     else [Block.para contentUnavailable "content"]
   | none => [Block.para contentUnavailable "content"])

/-- The article loop of `create_pdf` with its separator rule (source
lines 785-786): a PageBreak after every article except the last. -/
def articleSequence (fetch : Article → Option (List Char × List (List Char × List Char)))
    (imgOk : List Char → List Char → Bool) : List Article → List Block
  | [] => []
  | [a] => articleBlocks fetch imgOk a
  | a :: b :: rest =>
    articleBlocks fetch imgOk a ++ Block.pageBreak :: articleSequence fetch imgOk (b :: rest)

/-- The title page of source lines 754-759 (generation timestamp
abstracted as `now`), ending with its unconditional PageBreak. -/
def titleBlocks (now feed_url : List Char) (n : Nat) : List Block :=
  [Block.para "RSS Articles".toList "title", Block.spacer 1 20,
   Block.para ("Feed: ".toList ++ feed_url) "meta",
   Block.para ("Generated: ".toList ++ now) "meta",
   Block.para ("Articles: ".toList ++ (toString n).toList) "meta",
   Block.pageBreak]

/-- The truncation of source lines 736-737: `if max_articles:` is a
Python truthiness test, so `None` and `0` both skip the slice. -/
def truncateArticles (articles : List Article) (max_articles : Option Nat) : List Article :=
  match max_articles with
  | some k => if k ≠ 0 then articles.take k else articles
  | none => articles

/-- Embedding of `RSSToPDFConverter.create_pdf` (source lines 727-802)
downstream of the feed fetch: `none` models the early return on an
empty article list (lines 732-734); otherwise the full story built from
the title page and the article loop. -/
def create_pdf (fetch : Article → Option (List Char × List (List Char × List Char)))
    (imgOk : List Char → List Char → Bool) (now feed_url : List Char)
    (articles : List Article) (max_articles : Option Nat) : Option (List Block) :=
  if articles.isEmpty then none
  else
    some (titleBlocks now feed_url (truncateArticles articles max_articles).length ++
      articleSequence fetch imgOk (truncateArticles articles max_articles))

/-! ## Statement vocabulary

The following definitions do not embed source code; they build the
input families and observations the claims quantify over. -/

/-- A size/crop query parameter in the family named by the
`extract_base_image_url` stability claim: `w=<digits>`, `h=<digits>`,
`c_limit` or `c_fill`. -/
inductive SizeParam where
  | w (ds : List Char)
  | h (ds : List Char)
  | climit
  | cfill
deriving DecidableEq, Repr

/-- Well-formedness of a size parameter: the numeric ones carry at
least one digit. -/
def validSizeParam : SizeParam → Bool
  | .w ds => !ds.isEmpty && ds.all Char.isDigit
  | .h ds => !ds.isEmpty && ds.all Char.isDigit
  | .climit => true
  | .cfill => true

def renderSizeParam : SizeParam → List Char
  | .w ds => 'w' :: '=' :: ds
  | .h ds => 'h' :: '=' :: ds
  | .climit => "c_limit".toList
  | .cfill => "c_fill".toList

/-- Render a parameter list as a query string: the first parameter
after the given separator (`?` at the top level), the rest after `&`. -/
def renderQueryFrom (sep : Char) : List SizeParam → List Char
  | [] => []
  | p :: ps => sep :: renderSizeParam p ++ renderQueryFrom '&' ps

def renderQuery (ps : List SizeParam) : List Char := renderQueryFrom '?' ps

/-- Selector-kind discriminators used to state what each query strip
removes. -/
def isWParam : SizeParam → Bool
  | .w _ => true
  | _ => false

def isHParam : SizeParam → Bool
  | .h _ => true
  | _ => false

def isClimitParam : SizeParam → Bool
  | .climit => true
  | _ => false

def isCfillParam : SizeParam → Bool
  | .cfill => true
  | _ => false

/-- Whether a selector's match exceeds the 500-character threshold of
source line 644. -/
def overThreshold (soup : Soup) (s : String) : Bool :=
  match soup.selectOne s with
  | some e => 500 < e.text.length
  | none => false

/-- Text of the last selector match in candidate order (the value the
`content` variable holds after a full, break-free pass of the loop). -/
def lastMatchText (soup : Soup) : Option (List Char) :=
  ((content_selectors.filterMap soup.selectOne).map Elem.text).getLast?

/-- A list is trimmed: neither its first nor its last character is
whitespace. -/
def trimmedOK (l : List Char) : Bool := !headIsWs l && !headIsWs l.reverse

/-- Concrete page for the selection counterexample: the only matching
selector is `article`, whose stripped text is short but non-empty, and
the page has a body with different text. -/
def soupCE : Soup where
  selectOne := fun s => if s = "article" then some ⟨"short text".toList, []⟩ else none
  body := some ⟨"THE FULL BODY TEXT".toList, []⟩

/-- Concrete page for the selection witness: the `article` selector
matches with a 501-character stripped text, exceeding the threshold. -/
def soupWin : Soup where
  selectOne := fun s =>
    if s = "article" then some ⟨List.replicate 501 'a', []⟩ else none
  body := none

/-- Extraction oracle that fails on every article. -/
def fetchNone : Article → Option (List Char × List (List Char × List Char)) := fun _ => none

/-- Image oracle that succeeds on every image. -/
def imgOkAll : List Char → List Char → Bool := fun _ _ => true

/-- Concrete articles for witnesses. -/
def articleOne : Article :=
  ⟨"First".toList, "http://e.x/1".toList, "2024-01-01".toList, "Ann".toList⟩

def articleTwo : Article :=
  ⟨"Second".toList, "http://e.x/2".toList, [], []⟩

/-! ## Theorems -/

/-- C1: the spec claims the fence `"```python\nprint(1)\n```"` is
rewritten to `"CODE BLOCK:\nprint(1)"`.  The code's own comment
(source line 467) and its downstream consumer (the `CODE BLOCK:`
handler at source line 992) show that is the intent, but the
inline-code rule of line 461 runs first and consumes the fence
backticks in pairs, so the fence rule of line 468 never fires: the
actual output keeps a stray backtick pair and the language tag. -/
theorem clean_markdown_fence_bug :
    clean_markdown_content "```python\nprint(1)\n```".toList =
      "`python\nprint(1)\n`".toList := by decide

/-- C3 counterexample: `clean_text` is not idempotent.  The sequential
entity replacement maps `&amp;quot;` to `&quot;` in one pass (the
`&quot;` rule at line 366 has already run when the `&amp;` rule at
line 372 creates the new entity), so a second pass changes the result
again. -/
theorem clean_text_not_idempotent :
    clean_text (clean_text "&amp;quot;".toList) ≠ clean_text "&amp;quot;".toList := by decide

/-- C3 (amended): each HTML entity of the known replacement table is
mapped to its literal character by a single pass of `clean_text`
(shown in a one-character context so the trim of line 401 does not
interfere), but the normalizer is not idempotent in general — see the
counterexample. -/
theorem clean_text_entity_table :
    clean_text "x&quot;y".toList = "x\"y".toList ∧
    clean_text "x&ldquo;y".toList = "x\"y".toList ∧
    clean_text "x&rdquo;y".toList = "x\"y".toList ∧
    clean_text "x&lsquo;y".toList = "x'y".toList ∧
    clean_text "x&rsquo;y".toList = "x'y".toList ∧
    clean_text "x&apos;y".toList = "x'y".toList ∧
    clean_text "x&amp;y".toList = "x&y".toList ∧
    clean_text "x&lt;y".toList = "x<y".toList ∧
    clean_text "x&gt;y".toList = "x>y".toList ∧
    clean_text "x&nbsp;y".toList = "x y".toList := by decide

/-- C4 counterexample: two URLs that differ only in where the `w=2`
parameter sits relative to the retained `a=1` parameter receive
different keys, because the strip of `[?&]w=\d+` removes the
separator together with the parameter: the survivor keeps a `?` in one
order and an `&` in the other. -/
theorem extract_base_image_url_reorder_unstable :
    extract_base_image_url "http://a/i.png?a=1&w=2".toList ≠
      extract_base_image_url "http://a/i.png?w=2&a=1".toList := by decide

/-- The image-collection loop only ever keeps input elements, in input
order. -/
theorem collectImagesGo_sublist :
    ∀ (imgs : List (List Char × List Char)) (seen : List (List Char)),
      (collectImagesGo seen imgs).Sublist imgs := by
  intro imgs
  induction imgs with
  | nil => intro seen; simp [collectImagesGo]
  | cons hd tl ih =>
    intro seen
    obtain ⟨src, alt⟩ := hd
    simp only [collectImagesGo]
    split
    · split
      · split
        · exact (ih seen).cons _
        · exact (ih _).cons₂ _
      · exact (ih seen).cons _
    · exact (ih seen).cons _

/-- Keys of the kept images are pairwise distinct and avoid the
incoming seen-set. -/
theorem collectImagesGo_keys :
    ∀ (imgs : List (List Char × List Char)) (seen : List (List Char)),
      ((collectImagesGo seen imgs).map (fun p => extract_base_image_url p.1)).Nodup ∧
      ∀ k ∈ (collectImagesGo seen imgs).map (fun p => extract_base_image_url p.1), k ∉ seen := by
  intro imgs
  induction imgs with
  | nil => intro seen; simp [collectImagesGo]
  | cons hd tl ih =>
    intro seen
    obtain ⟨src, alt⟩ := hd
    simp only [collectImagesGo]
    split
    · split
      · split
        · exact ih seen
        · rename_i hhttp hcont hnotseen
          constructor
          · simp only [List.map_cons, List.nodup_cons]
            refine ⟨?_, (ih _).1⟩
            intro hmem
            have := (ih (extract_base_image_url src :: seen)).2 _ hmem
            simp at this
          · intro k hk
            simp only [List.map_cons, List.mem_cons] at hk
            rcases hk with rfl | hk
            · exact hnotseen
            · have := (ih (extract_base_image_url src :: seen)).2 _ hk
              intro hs
              exact this (List.mem_cons_of_mem _ hs)
      · exact ih seen
    · exact ih seen

/-- C6: during image collection for one article, images are
deduplicated by the derived base key — the kept list has pairwise
distinct keys and preserves first-seen order (it is a sublist of the
discovery order); the identity is the derived key, not the raw URL, as
two distinct raw URLs with the same key collapse to the first. -/
theorem collectImages_dedup_spec :
    (∀ imgs : List (List Char × List Char),
      ((collectImages imgs).map (fun p => extract_base_image_url p.1)).Nodup ∧
      (collectImages imgs).Sublist imgs) ∧
    collectImages
      [("http://x/i.png?w=1".toList, "figure1".toList),
       ("http://x/i.png?w=2".toList, "figure2".toList)] =
      [("http://x/i.png?w=1".toList, "figure1".toList)] ∧
    "http://x/i.png?w=1".toList ≠ "http://x/i.png?w=2".toList ∧
    extract_base_image_url "http://x/i.png?w=1".toList =
      extract_base_image_url "http://x/i.png?w=2".toList :=
  ⟨fun imgs => ⟨(collectImagesGo_keys imgs []).1, collectImagesGo_sublist imgs []⟩,
   by decide, by decide, by decide⟩

/-- Prefix matching is preserved by character-wise lowering. -/
theorem isPrefixOf_pyLower :
    ∀ (p s : List Char), p.isPrefixOf s = true →
      (pyLower p).isPrefixOf (pyLower s) = true := by
  intro p
  induction p with
  | nil => intro s _; simp [pyLower, List.isPrefixOf]
  | cons a p' ih =>
    intro s h
    cases s with
    | nil => simp [List.isPrefixOf] at h
    | cons b s' =>
      simp only [List.isPrefixOf, Bool.and_eq_true, beq_iff_eq] at h
      obtain ⟨rfl, h2⟩ := h
      simpa [pyLower, List.isPrefixOf] using ih s' h2

/-- Substring matching is preserved by character-wise lowering. -/
theorem hasSubstr_pyLower :
    ∀ (s p : List Char), hasSubstr p s = true →
      hasSubstr (pyLower p) (pyLower s) = true := by
  intro s
  induction s with
  | nil =>
    intro p h
    simp only [hasSubstr, List.isEmpty_iff] at h
    subst h
    simp [hasSubstr, pyLower]
  | cons c cs ih =>
    intro p h
    simp only [hasSubstr, Bool.or_eq_true] at h
    rcases h with h | h
    · have := isPrefixOf_pyLower p (c :: cs) h
      simp only [pyLower, List.map_cons] at this ⊢
      simp [hasSubstr, this]
    · simp only [pyLower, List.map_cons]
      simp only [hasSubstr, Bool.or_eq_true]
      right
      simpa [pyLower] using ih p h

/-- A lower-invariant pattern absent from the lowered string is absent
from the raw string. -/
theorem hasSubstr_raw_of_lower_false (p s : List Char) (hp : pyLower p = p)
    (h : hasSubstr p (pyLower s) = false) : hasSubstr p s = false := by
  cases hv : hasSubstr p s
  · rfl
  · have := hasSubstr_pyLower s p hv
    rw [hp, h] at this
    exact absurd this (by simp)

/-- C7: `is_content_image` returns false whenever the lowered URL or
alt text contains any token of the decorative skip table (avatar, logo,
`w_36`-style sizes, Substack profile hosts, ...), regardless of other
content; and returns true for a URL containing `w_1456` when no
decorative token is present. -/
theorem is_content_image_spec :
    ∀ src alt : List Char,
      (skip_patterns.any
          (fun p => hasSubstr p (pyLower src) || hasSubstr p (pyLower alt)) = true →
        is_content_image src alt = false) ∧
      (skip_patterns.any
          (fun p => hasSubstr p (pyLower src) || hasSubstr p (pyLower alt)) = false →
        hasSubstr "w_1456".toList src = true →
        is_content_image src alt = true) := by
  intro src alt
  constructor
  · intro h
    simp [is_content_image, h]
  · intro h _
    have hsrc : ∀ p ∈ skip_patterns, hasSubstr p (pyLower src) = false := by
      intro p hp
      have h2 := List.any_eq_false.mp h p hp
      cases hx : hasSubstr p (pyLower src)
      · rfl
      · exact absurd (by simp [hx]) h2
    have hsmall : small_sizes.any (fun p => hasSubstr p src) = false := by
      apply List.any_eq_false.mpr
      intro p hp
      simp only [Bool.not_eq_true]
      fin_cases hp <;>
        exact hasSubstr_raw_of_lower_false _ src (by decide) (hsrc _ (by decide))
    have hsub1 : hasSubstr "substack.com/@".toList src = false :=
      hasSubstr_raw_of_lower_false _ src (by decide) (hsrc _ (by decide))
    have hsub2 : hasSubstr
        "bucketeer-e05bbc84-baa3-437e-9518-adb32be77984.s3.amazonaws.com".toList src = false :=
      hasSubstr_raw_of_lower_false _ src (by decide) (hsrc _ (by decide))
    simp [is_content_image, h, hsmall]
    exact ⟨by simpa using hsub1, by simpa using hsub2⟩

/-- C7 witness: a decorative URL is rejected and a large-dimension URL
with no decorative token is accepted. -/
theorem is_content_image_spec_witness :
    is_content_image "http://a/logo.png".toList "x".toList = false ∧
    is_content_image "http://a/pic_w_1456.png".toList "".toList = true :=
  ⟨(is_content_image_spec "http://a/logo.png".toList "x".toList).1 (by decide),
   (is_content_image_spec "http://a/pic_w_1456.png".toList "".toList).2 (by decide) (by decide)⟩

/-- C10: a max-article cap of 0 is Python-falsy at source line 736, so
`create_pdf` with `max_articles = 0` behaves exactly like the uncapped
call and processes every article of the feed. -/
theorem create_pdf_zero_cap :
    ∀ fetch imgOk (now url : List Char) (articles : List Article),
      articles ≠ [] →
      create_pdf fetch imgOk now url articles (some 0) =
        create_pdf fetch imgOk now url articles none ∧
      create_pdf fetch imgOk now url articles (some 0) =
        some (titleBlocks now url articles.length ++ articleSequence fetch imgOk articles) := by
  intro fetch imgOk now url articles h
  have hne : articles.isEmpty = false := by
    cases articles with
    | nil => exact absurd rfl h
    | cons a l => rfl
  constructor <;> simp [create_pdf, truncateArticles, hne]

/-- C10 witness at a concrete two-article feed. -/
theorem create_pdf_zero_cap_witness :
    create_pdf fetchNone imgOkAll [] [] [articleOne, articleTwo] (some 0) =
      create_pdf fetchNone imgOkAll [] [] [articleOne, articleTwo] none :=
  (create_pdf_zero_cap fetchNone imgOkAll [] [] [articleOne, articleTwo]
    (List.cons_ne_nil _ _)).1

/-- If some selector exceeds the threshold, the loop breaks at the
first such selector, no matter what the accumulator holds. -/
theorem selLoopGo_break (soup : Soup) :
    ∀ (l : List String) (acc : Option (List Char)) (ael : Option Elem) (s : String) (e : Elem),
      l.find? (overThreshold soup) = some s → soup.selectOne s = some e →
      selLoopGo soup acc ael l = (some e.text, some e, some s) := by
  intro l
  induction l with
  | nil => intro acc ael s e hf _; simp at hf
  | cons hd tl ih =>
    intro acc ael s e hf hsel
    by_cases hp : overThreshold soup hd
    · rw [List.find?_cons_of_pos _ hp] at hf
      injection hf with hf
      subst hf
      have hlen : 500 < e.text.length := by
        simpa [overThreshold, hsel] using hp
      simp [selLoopGo, hsel, hlen]
    · rw [List.find?_cons_of_neg _ hp] at hf
      cases hsel2 : soup.selectOne hd with
      | none => simpa [selLoopGo, hsel2] using ih acc none s e hf hsel
      | some e2 =>
        have hlen : ¬500 < e2.text.length := by
          simpa [overThreshold, hsel2] using hp
        simpa [selLoopGo, hsel2, hlen] using ih (some e2.text) (some e2) s e hf hsel

/-- If no selector exceeds the threshold, the loop completes and the
`content` variable ends up holding the last match's text (or the
incoming accumulator if nothing matched at all). -/
theorem selLoopGo_nobreak (soup : Soup) :
    ∀ (l : List String) (acc : Option (List Char)) (ael : Option Elem),
      l.find? (overThreshold soup) = none →
      (selLoopGo soup acc ael l).1 =
        match ((l.filterMap soup.selectOne).map Elem.text).getLast? with
        | some t => some t
        | none => acc := by
  intro l
  induction l with
  | nil => intro acc ael _; simp [selLoopGo]
  | cons hd tl ih =>
    intro acc ael hf
    have hp : ¬overThreshold soup hd := by
      intro hp
      rw [List.find?_cons_of_pos _ hp] at hf
      exact Option.noConfusion hf
    rw [List.find?_cons_of_neg _ hp] at hf
    cases hsel : soup.selectOne hd with
    | none =>
      rw [List.filterMap_cons_none hsel]
      simpa [selLoopGo, hsel] using ih acc none hf
    | some e =>
      have hlen : ¬500 < e.text.length := by
        simpa [overThreshold, hsel] using hp
      rw [List.filterMap_cons_some hsel, List.map_cons]
      have hrec := ih (some e.text) (some e) hf
      simp only [selLoopGo, hsel, hlen, if_false]
      rw [hrec]
      cases hgl : ((tl.filterMap soup.selectOne).map Elem.text).getLast? with
      | none =>
        have hnil : (tl.filterMap soup.selectOne).map Elem.text = [] := by
          cases hmap : (tl.filterMap soup.selectOne).map Elem.text with
          | nil => rfl
          | cons x xs =>
            rw [hmap] at hgl
            cases xs <;> simp_all
        simp [hgl, hnil]
      | some t =>
        have hL : (tl.filterMap soup.selectOne).map Elem.text ≠ [] := by
          intro h0
          rw [h0] at hgl
          exact Option.noConfusion hgl
        have h2 : (e.text :: (tl.filterMap soup.selectOne).map Elem.text).getLast? = some t := by
          rw [show e.text :: (tl.filterMap soup.selectOne).map Elem.text =
                [e.text] ++ (tl.filterMap soup.selectOne).map Elem.text from rfl,
            List.getLast?_append_of_ne_nil _ hL]
          exact hgl
        simp [hgl, h2]

/-- C2 (amended): the first selector whose stripped text exceeds 500
characters wins, in candidate-list priority order; but when no selector
satisfies the threshold, the extractor uses the text of the last
matching selector whenever that text is non-empty (`content` is
overwritten by every match and guards the fallback), and falls back to
the document body only when no selector produced non-empty text. -/
theorem selectContent_selection_spec :
    ∀ soup : Soup,
      (∀ (s : String) (e : Elem),
        content_selectors.find? (overThreshold soup) = some s →
        soup.selectOne s = some e →
        selectContent soup = (some e.text, some e, some s)) ∧
      (content_selectors.find? (overThreshold soup) = none →
        (selectContent soup).1 =
          match lastMatchText soup with
          | some t =>
            if t.isEmpty then
              match soup.body with
              | some b => some b.text
              | none => some t
            else some t
          | none =>
            match soup.body with
            | some b => some b.text
            | none => none) := by
  intro soup
  constructor
  · intro s e hf hsel
    have hloop := selLoopGo_break soup content_selectors none none s e hf hsel
    have hlen : 500 < e.text.length := by
      simpa [overThreshold, hsel] using List.find?_some hf
    have hne : e.text ≠ [] := by
      intro hnil
      rw [hnil] at hlen
      simp at hlen
    simp [selectContent, hloop, hne]
  · intro hf
    have hloop := selLoopGo_nobreak soup content_selectors none none hf
    cases hl : lastMatchText soup with
    | none =>
      rw [lastMatchText] at hl
      rw [hl] at hloop
      cases hb : soup.body with
      | none => simp [selectContent, hloop, hb]
      | some b => simp [selectContent, hloop, hb]
    | some t =>
      rw [lastMatchText] at hl
      rw [hl] at hloop
      by_cases ht : t = []
      · subst ht
        cases hb : soup.body with
        | none => simp [selectContent, hloop, hb]
        | some b => simp [selectContent, hloop, hb]
      · have htl : ¬(t.isEmpty = true) := by
          simpa [List.isEmpty_iff] using ht
        simp [selectContent, hloop, ht, htl]

/-- C2 witness: on a page whose `article` selector matches with text
over the threshold, that first selector wins. -/
theorem selectContent_selection_spec_witness :
    selectContent soupWin =
      (some (List.replicate 501 'a'), some ⟨List.replicate 501 'a', []⟩, some "article") := by
  have hsel : soupWin.selectOne "article" = some ⟨List.replicate 501 'a', []⟩ := rfl
  have hp : overThreshold soupWin "article" = true := by
    simp only [overThreshold, hsel, List.length_replicate]
    decide
  have hf : content_selectors.find? (overThreshold soupWin) = some "article" := by
    unfold content_selectors
    exact List.find?_cons_of_pos _ hp
  exact (selectContent_selection_spec soupWin).1 "article" ⟨List.replicate 501 'a', []⟩ hf hsel

/-- C2 counterexample: on a page where the only selector match is
under the 500-character threshold but non-empty, the claimed body
fallback does not happen — the extractor returns the under-threshold
match instead of the body text. -/
theorem selectContent_no_body_fallback :
    content_selectors.find? (overThreshold soupCE) = none ∧
    soupCE.body = some ⟨"THE FULL BODY TEXT".toList, []⟩ ∧
    (selectContent soupCE).1 = some "short text".toList ∧
    (selectContent soupCE).1 ≠ some "THE FULL BODY TEXT".toList :=
  ⟨by decide, rfl, by decide, by decide⟩

/-- Appending lists avoiding a block avoids it. -/
theorem notMemAppend {a : Block} {xs ys : List Block} (hx : a ∉ xs) (hy : a ∉ ys) :
    a ∉ xs ++ ys := by
  intro h
  rcases List.mem_append.mp h with h | h
  exacts [hx h, hy h]

theorem pageBreak_not_mem_add_code_block (lines : List (List Char)) :
    Block.pageBreak ∉ add_code_block_to_story lines := by
  unfold add_code_block_to_story
  split <;> simp

theorem pageBreak_not_mem_add_image (imgOk : List Char → List Char → Bool)
    (url alt : List Char) : Block.pageBreak ∉ add_image_to_story imgOk url alt := by
  unfold add_image_to_story
  split <;> simp

theorem pageBreak_not_mem_add_heading (line : List Char) :
    Block.pageBreak ∉ add_heading_to_story line := by
  simp only [add_heading_to_story]
  split <;> simp

theorem pageBreak_not_mem_add_quote (line : List Char) :
    Block.pageBreak ∉ add_quote_to_story line := by
  simp only [add_quote_to_story]
  split <;> simp

theorem pageBreak_not_mem_add_list (line : List Char) :
    Block.pageBreak ∉ add_list_item_to_story line := by
  simp only [add_list_item_to_story]
  split <;> simp

theorem pageBreak_not_mem_flush (buf : List (List Char)) :
    Block.pageBreak ∉ (if !buf.isEmpty then add_code_block_to_story buf else []) := by
  split
  · exact pageBreak_not_mem_add_code_block buf
  · simp

/-- No branch of the content-formatting loop ever emits a PageBreak. -/
theorem pageBreak_not_mem_fmtGo (imgOk : List Char → List Char → Bool)
    (images : List (List Char × List Char)) :
    ∀ (lines : List (List Char)) (buf : List (List Char)) (idx : Nat),
      Block.pageBreak ∉ fmtGo imgOk images buf idx lines := by
  intro lines
  induction lines with
  | nil =>
    intro buf idx
    simp only [fmtGo]
    refine notMemAppend (pageBreak_not_mem_flush buf) ?_
    intro h
    rcases List.mem_flatMap.mp h with ⟨p, _, hp⟩
    exact pageBreak_not_mem_add_image imgOk p.1 p.2 hp
  | cons l rest ih =>
    intro buf idx
    simp only [fmtGo]
    split
    · exact ih buf idx
    split
    · exact notMemAppend (pageBreak_not_mem_flush buf) (ih [] idx)
    split
    · exact ih (buf ++ [pyStrip l]) idx
    split
    · exact notMemAppend (pageBreak_not_mem_add_heading _) (ih buf idx)
    split
    · exact notMemAppend (pageBreak_not_mem_add_quote _) (ih buf idx)
    split
    · exact notMemAppend (pageBreak_not_mem_add_list _) (ih buf idx)
    split
    · refine notMemAppend ?_ (ih buf (idx + 1))
      cases h : images.get? idx with
      | some p => simpa [h] using pageBreak_not_mem_add_image imgOk p.1 p.2
      | none => simp [h]
    split
    · refine notMemAppend ?_ (ih buf idx)
      cases h : parseMdImage (pyStrip l) with
      | some pr => simpa [h] using pageBreak_not_mem_add_image imgOk (fixCorruptedUrl pr.2) pr.1
      | none => simp [h]
    simp [ih buf idx]

theorem pageBreak_not_mem_articleMeta (a : Article) :
    Block.pageBreak ∉ articleMetaBlocks a := by
  by_cases h1 : a.author.isEmpty <;> by_cases h2 : a.published.isEmpty <;>
    simp [articleMetaBlocks, h1, h2]

theorem image_not_mem_articleMeta (a : Article) (u alt : List Char) :
    Block.image u alt ∉ articleMetaBlocks a := by
  by_cases h1 : a.author.isEmpty <;> by_cases h2 : a.published.isEmpty <;>
    simp [articleMetaBlocks, h1, h2]

theorem pageBreak_not_mem_articleBlocks
    (fetch : Article → Option (List Char × List (List Char × List Char)))
    (imgOk : List Char → List Char → Bool) (a : Article) :
    Block.pageBreak ∉ articleBlocks fetch imgOk a := by
  unfold articleBlocks
  refine notMemAppend (pageBreak_not_mem_articleMeta a) ?_
  cases hf : fetch a with
  | none => simp
  | some pr =>
    obtain ⟨c, imgs⟩ := pr
    by_cases hc : c.isEmpty = true
    · simp [hc]
    · have hcc : (!c.isEmpty) = true := by simp [hc]
      simp only [hcc, if_true, add_formatted_content_to_story]
      exact pageBreak_not_mem_fmtGo imgOk imgs (c.splitOn '\n') [] 0

theorem articleBlocks_ne_nil
    (fetch : Article → Option (List Char × List (List Char × List Char)))
    (imgOk : List Char → List Char → Bool) (a : Article) :
    articleBlocks fetch imgOk a ≠ [] := by
  simp [articleBlocks, articleMetaBlocks]

/-- The article loop is the intercalation of the per-article block runs
with single PageBreaks. -/
theorem articleSequence_eq_intercalate
    (fetch : Article → Option (List Char × List (List Char × List Char)))
    (imgOk : List Char → List Char → Bool) :
    ∀ l : List Article,
      articleSequence fetch imgOk l =
        List.intercalate [Block.pageBreak] (l.map (articleBlocks fetch imgOk)) := by
  intro l
  induction l with
  | nil => simp [articleSequence, List.intercalate]
  | cons a tl ih =>
    cases tl with
    | nil => simp [articleSequence, List.intercalate]
    | cons b tl2 =>
      simp only [articleSequence] at ih ⊢
      rw [ih]
      simp [List.intercalate, List.intersperse]

theorem articleSequence_ne_nil
    (fetch : Article → Option (List Char × List (List Char × List Char)))
    (imgOk : List Char → List Char → Bool) :
    ∀ l : List Article, l ≠ [] → articleSequence fetch imgOk l ≠ [] := by
  intro l hl
  cases l with
  | nil => exact absurd rfl hl
  | cons a tl =>
    cases tl with
    | nil => exact articleBlocks_ne_nil fetch imgOk a
    | cons b tl2 =>
      simp only [articleSequence]
      intro h
      rcases List.append_eq_nil.mp h with ⟨_, h2⟩
      exact List.cons_ne_nil _ _ h2

/-- The last block of the article loop is the last block of the last
article's run. -/
theorem articleSequence_getLast?
    (fetch : Article → Option (List Char × List (List Char × List Char)))
    (imgOk : List Char → List Char → Bool) :
    ∀ l : List Article, l ≠ [] →
      ∃ a ∈ l, (articleSequence fetch imgOk l).getLast? =
        (articleBlocks fetch imgOk a).getLast? := by
  intro l
  induction l with
  | nil => intro h; exact absurd rfl h
  | cons a tl ih =>
    intro _
    cases tl with
    | nil => exact ⟨a, List.mem_singleton_self a, rfl⟩
    | cons b tl2 =>
      obtain ⟨a2, ha2, hlast⟩ := ih (List.cons_ne_nil _ _)
      refine ⟨a2, List.mem_cons_of_mem _ ha2, ?_⟩
      simp only [articleSequence]
      rw [List.getLast?_append_of_ne_nil _ (List.cons_ne_nil _ _)]
      rw [show Block.pageBreak :: articleSequence fetch imgOk (b :: tl2) =
            [Block.pageBreak] ++ articleSequence fetch imgOk (b :: tl2) from rfl]
      rw [List.getLast?_append_of_ne_nil _
        (articleSequence_ne_nil fetch imgOk _ (List.cons_ne_nil _ _))]
      exact hlast

theorem truncateArticles_ne_nil (articles : List Article) (cap : Option Nat)
    (h : articles ≠ []) : truncateArticles articles cap ≠ [] := by
  cases cap with
  | none => exact h
  | some k =>
    simp only [truncateArticles]
    split
    · cases articles with
      | nil => exact absurd rfl h
      | cons a tl =>
        cases k with
        | zero => simp_all
        | succ m => simp [List.take]
    · exact h

/-- C5: for every non-empty article list, `create_pdf` builds its story
as the title page followed by the per-article block runs intercalated
with single PageBreaks; the per-article runs are non-empty and contain
no PageBreak (so PageBreaks sit exactly between consecutive articles),
and the very last block of the document is never a PageBreak. -/
theorem create_pdf_pagebreak_spec :
    ∀ (fetch : Article → Option (List Char × List (List Char × List Char)))
      (imgOk : List Char → List Char → Bool) (now url : List Char)
      (articles : List Article) (cap : Option Nat),
      articles ≠ [] →
      ∃ st, create_pdf fetch imgOk now url articles cap = some st ∧
        st = titleBlocks now url (truncateArticles articles cap).length ++
          List.intercalate [Block.pageBreak]
            ((truncateArticles articles cap).map (articleBlocks fetch imgOk)) ∧
        (∀ a : Article, articleBlocks fetch imgOk a ≠ [] ∧
          Block.pageBreak ∉ articleBlocks fetch imgOk a) ∧
        st.getLast? ≠ some Block.pageBreak := by
  intro fetch imgOk now url articles cap h
  have hne : articles.isEmpty = false := by
    cases articles with
    | nil => exact absurd rfl h
    | cons a l => rfl
  have htr := truncateArticles_ne_nil articles cap h
  refine ⟨titleBlocks now url (truncateArticles articles cap).length ++
    articleSequence fetch imgOk (truncateArticles articles cap), ?_, ?_, ?_, ?_⟩
  · simp [create_pdf, hne]
  · rw [articleSequence_eq_intercalate]
  · intro a
    exact ⟨articleBlocks_ne_nil fetch imgOk a, pageBreak_not_mem_articleBlocks fetch imgOk a⟩
  · rw [List.getLast?_append_of_ne_nil _ (articleSequence_ne_nil fetch imgOk _ htr)]
    obtain ⟨a, _, hlast⟩ := articleSequence_getLast? fetch imgOk _ htr
    rw [hlast]
    intro hbad
    exact pageBreak_not_mem_articleBlocks fetch imgOk a (List.mem_of_getLast?_eq_some hbad)

/-- C5 witness: a feed with 2 entries and `max_articles = 1` yields a
document whose last block is not a PageBreak (it contains exactly the
one article section after the title page). -/
theorem create_pdf_pagebreak_spec_witness :
    ∃ st, create_pdf fetchNone imgOkAll [] [] [articleOne, articleTwo] (some 1) = some st ∧
      st.getLast? ≠ some Block.pageBreak := by
  obtain ⟨st, h1, _, _, h4⟩ :=
    create_pdf_pagebreak_spec fetchNone imgOkAll [] [] [articleOne, articleTwo] (some 1)
      (List.cons_ne_nil _ _)
  exact ⟨st, h1, h4⟩

/-- C8: when content extraction fails (`fetch` returns `none`), the
article's block run is its metadata followed by exactly one Paragraph
carrying the literal placeholder text, with no image blocks; and the
run for every other article is still assembled — `create_pdf` keeps
processing the whole list. -/
theorem create_pdf_failed_extraction_spec :
    ∀ (fetch : Article → Option (List Char × List (List Char × List Char)))
      (imgOk : List Char → List Char → Bool) (a : Article),
      fetch a = none →
      articleBlocks fetch imgOk a =
        articleMetaBlocks a ++ [Block.para contentUnavailable "content"] ∧
      (∀ u alt : List Char, Block.image u alt ∉ articleBlocks fetch imgOk a) ∧
      ∀ (now url : List Char) (pre post : List Article),
        create_pdf fetch imgOk now url (pre ++ a :: post) none =
          some (titleBlocks now url (pre ++ a :: post).length ++
            articleSequence fetch imgOk (pre ++ a :: post)) := by
  intro fetch imgOk a hf
  have heq : articleBlocks fetch imgOk a =
      articleMetaBlocks a ++ [Block.para contentUnavailable "content"] := by
    simp [articleBlocks, hf]
  refine ⟨heq, ?_, ?_⟩
  · intro u alt
    rw [heq]
    refine notMemAppend (image_not_mem_articleMeta a u alt) ?_
    simp
  · intro now url pre post
    have hne : (pre ++ a :: post).isEmpty = false := by
      cases pre <;> rfl
    simp [create_pdf, truncateArticles, hne]

/-- C8 witness: a concrete failing article yields the placeholder
paragraph run. -/
theorem create_pdf_failed_extraction_spec_witness :
    articleBlocks fetchNone imgOkAll articleOne =
      articleMetaBlocks articleOne ++ [Block.para contentUnavailable "content"] :=
  (create_pdf_failed_extraction_spec fetchNone imgOkAll articleOne rfl).1

/-- Characters of a `pyReplace` output come from the input or the
replacement text. -/
theorem mem_pyReplace :
    ∀ (fuel : Nat) (pat rep s : List Char) (c : Char),
      c ∈ pyReplace fuel pat rep s → c ∈ s ∨ c ∈ rep := by
  intro fuel
  induction fuel with
  | zero => intro pat rep s c h; exact Or.inl h
  | succ n ih =>
    intro pat rep s c h
    cases s with
    | nil => simp [pyReplace] at h
    | cons a as =>
      simp only [pyReplace] at h
      split at h
      · rcases List.mem_append.mp h with h2 | h2
        · exact Or.inr h2
        · rcases ih _ _ _ _ h2 with h3 | h3
          · exact Or.inl ((List.drop_sublist _ _).subset h3)
          · exact Or.inr h3
      · rcases List.mem_cons.mp h with rfl | h2
        · exact Or.inl (List.mem_cons_self _ _)
        · rcases ih _ _ _ _ h2 with h3 | h3
          · exact Or.inl (List.mem_cons_of_mem a h3)
          · exact Or.inr h3

/-- With enough fuel, the backslash-deletion pass removes every
backslash. -/
theorem backslash_not_mem_pyReplace :
    ∀ (fuel : Nat) (s : List Char), s.length ≤ fuel →
      '\\' ∉ pyReplace fuel "\\".toList [] s := by
  intro fuel
  induction fuel with
  | zero =>
    intro s hs
    have : s = [] := List.length_eq_zero.mp (Nat.le_zero.mp hs)
    subst this
    simp [pyReplace]
  | succ n ih =>
    intro s hs
    cases s with
    | nil => simp [pyReplace]
    | cons a as =>
      simp only [pyReplace]
      split
      · exact ih as (Nat.le_of_succ_le_succ hs)
      · rename_i hcond
        intro h
        rcases List.mem_cons.mp h with rfl | h2
        · exact hcond (by simp [List.isPrefixOf])
        · exact ih as (Nat.le_of_succ_le_succ hs) h2

/-- Characters of the isolated-exclamation pass come from the input or
are the inserted space. -/
theorem mem_subIsolatedBangs :
    ∀ (fuel : Nat) (s : List Char) (c : Char),
      c ∈ subIsolatedBangs fuel s → c ∈ s ∨ c = ' ' := by
  intro fuel
  induction fuel with
  | zero => intro s c h; exact Or.inl h
  | succ n ih =>
    intro s c h
    cases s with
    | nil => simp [subIsolatedBangs] at h
    | cons a as =>
      have hsub : ((((a :: as).dropWhile isPySpace).dropWhile
          (fun x => x = '!')).dropWhile isPySpace).Sublist (a :: as) :=
        (List.dropWhile_sublist _).trans
          ((List.dropWhile_sublist _).trans (List.dropWhile_sublist _))
      simp only [subIsolatedBangs] at h
      split at h
      · split at h
        · rcases List.mem_cons.mp h with rfl | h2
          · exact Or.inr rfl
          · rcases ih _ _ h2 with h3 | h3
            · exact Or.inl (hsub.subset h3)
            · exact Or.inr h3
        · rcases List.mem_cons.mp h with rfl | h2
          · exact Or.inl (List.mem_cons_self _ _)
          · rcases ih _ _ h2 with h3 | h3
            · exact Or.inl (List.mem_cons_of_mem a h3)
            · exact Or.inr h3
      · rcases List.mem_cons.mp h with rfl | h2
        · exact Or.inl (List.mem_cons_self _ _)
        · rcases ih _ _ h2 with h3 | h3
          · exact Or.inl (List.mem_cons_of_mem a h3)
          · exact Or.inr h3

/-- Characters of the repeated-exclamation pass come from the input or
are the kept exclamation mark. -/
theorem mem_subMultiBangs :
    ∀ (fuel : Nat) (s : List Char) (c : Char),
      c ∈ subMultiBangs fuel s → c ∈ s ∨ c = '!' := by
  intro fuel
  induction fuel with
  | zero => intro s c h; exact Or.inl h
  | succ n ih =>
    intro s c h
    cases s with
    | nil => simp [subMultiBangs] at h
    | cons a as =>
      simp only [subMultiBangs] at h
      split at h
      · split at h
        · rcases List.mem_cons.mp h with rfl | h2
          · exact Or.inr rfl
          · rcases ih _ _ h2 with h3 | h3
            · exact Or.inl (List.mem_cons_of_mem a ((List.dropWhile_sublist _).subset h3))
            · exact Or.inr h3
        · rcases List.mem_cons.mp h with rfl | h2
          · exact Or.inl (List.mem_cons_self _ _)
          · rcases ih _ _ h2 with h3 | h3
            · exact Or.inl (List.mem_cons_of_mem a h3)
            · exact Or.inr h3
      · rcases List.mem_cons.mp h with rfl | h2
        · exact Or.inl (List.mem_cons_self _ _)
        · rcases ih _ _ h2 with h3 | h3
          · exact Or.inl (List.mem_cons_of_mem a h3)
          · exact Or.inr h3

/-- Characters of the stray-symbol-run pass come from the input or are
the inserted space. -/
theorem mem_subJunkRun :
    ∀ (fuel : Nat) (s : List Char) (c : Char),
      c ∈ subJunkRun fuel s → c ∈ s ∨ c = ' ' := by
  intro fuel
  induction fuel with
  | zero => intro s c h; exact Or.inl h
  | succ n ih =>
    intro s c h
    cases s with
    | nil => simp [subJunkRun] at h
    | cons a as =>
      have hsub : ((((a :: as).dropWhile isPySpace).dropWhile
          isJunkChar).dropWhile isPySpace).Sublist (a :: as) :=
        (List.dropWhile_sublist _).trans
          ((List.dropWhile_sublist _).trans (List.dropWhile_sublist _))
      simp only [subJunkRun] at h
      split at h
      · split at h
        · rcases List.mem_cons.mp h with rfl | h2
          · exact Or.inr rfl
          · rcases ih _ _ h2 with h3 | h3
            · exact Or.inl (hsub.subset h3)
            · exact Or.inr h3
        · rcases List.mem_cons.mp h with rfl | h2
          · exact Or.inl (List.mem_cons_self _ _)
          · rcases ih _ _ h2 with h3 | h3
            · exact Or.inl (List.mem_cons_of_mem a h3)
            · exact Or.inr h3
      · rcases List.mem_cons.mp h with rfl | h2
        · exact Or.inl (List.mem_cons_self _ _)
        · rcases ih _ _ h2 with h3 | h3
          · exact Or.inl (List.mem_cons_of_mem a h3)
          · exact Or.inr h3

/-- Characters of the whitespace-collapsing pass are non-whitespace
input characters or the single inserted space. -/
theorem mem_wsCollapseGo :
    ∀ (s : List Char) (flag : Bool) (c : Char),
      c ∈ wsCollapseGo flag s → (c ∈ s ∧ isPySpace c = false) ∨ c = ' ' := by
  intro s
  induction s with
  | nil => intro flag c h; simp [wsCollapseGo] at h
  | cons a as ih =>
    intro flag c h
    simp only [wsCollapseGo] at h
    split at h
    · split at h
      · rcases ih _ _ h with ⟨h1, h2⟩ | h2
        · exact Or.inl ⟨List.mem_cons_of_mem a h1, h2⟩
        · exact Or.inr h2
      · rcases List.mem_cons.mp h with rfl | h2
        · exact Or.inr rfl
        · rcases ih _ _ h2 with ⟨h1, h3⟩ | h3
          · exact Or.inl ⟨List.mem_cons_of_mem a h1, h3⟩
          · exact Or.inr h3
    · rcases List.mem_cons.mp h with rfl | h2
      · rename_i hna
        exact Or.inl ⟨List.mem_cons_self _ _, Bool.eq_false_iff.mpr hna⟩
      · rcases ih _ _ h2 with ⟨h1, h3⟩ | h3
        · exact Or.inl ⟨List.mem_cons_of_mem a h1, h3⟩
        · exact Or.inr h3

/-- Stripping only removes characters. -/
theorem mem_pyStrip (s : List Char) (c : Char) (h : c ∈ pyStrip s) : c ∈ s := by
  simp only [pyStrip] at h
  rw [List.mem_reverse] at h
  have h2 := (List.dropWhile_sublist _).subset h
  rw [List.mem_reverse] at h2
  exact (List.dropWhile_sublist _).subset h2

theorem headIsWs_dropWhile_false (l : List Char) :
    headIsWs (l.dropWhile isPySpace) = false := by
  induction l with
  | nil => rfl
  | cons a as ih =>
    by_cases ha : isPySpace a = true
    · rw [List.dropWhile_cons_of_pos ha]
      exact ih
    · rw [List.dropWhile_cons_of_neg ha]
      simpa [headIsWs] using Bool.eq_false_iff.mpr ha

theorem getLast?_dropWhile_of_ne_nil (p : Char → Bool) :
    ∀ l : List Char, l.dropWhile p ≠ [] → (l.dropWhile p).getLast? = l.getLast? := by
  intro l
  induction l with
  | nil => intro h; exact absurd rfl h
  | cons a as ih =>
    intro h
    by_cases ha : p a = true
    · rw [List.dropWhile_cons_of_pos ha] at h ⊢
      rw [ih h]
      have has : as ≠ [] := by
        intro h0
        subst h0
        exact h rfl
      cases as with
      | nil => exact absurd rfl has
      | cons b bs => rw [List.getLast?_cons_cons]
    · rw [List.dropWhile_cons_of_neg ha]

theorem headIsWs_head? (l : List Char) :
    headIsWs l = (match l.head? with | some c => isPySpace c | none => false) := by
  cases l <;> rfl

/-- Stripping always yields a trimmed result. -/
theorem trimmedOK_pyStrip (s : List Char) : trimmedOK (pyStrip s) = true := by
  have hA : headIsWs (s.dropWhile isPySpace) = false := headIsWs_dropWhile_false s
  have hB : headIsWs ((s.dropWhile isPySpace).reverse.dropWhile isPySpace) = false :=
    headIsWs_dropWhile_false _
  unfold trimmedOK
  rw [Bool.and_eq_true, Bool.not_eq_true', Bool.not_eq_true']
  constructor
  · unfold pyStrip
    rw [headIsWs_head?, List.head?_reverse]
    by_cases hne : (s.dropWhile isPySpace).reverse.dropWhile isPySpace = []
    · rw [hne]
      rfl
    · rw [getLast?_dropWhile_of_ne_nil _ _ hne, List.getLast?_reverse]
      rw [headIsWs_head?] at hA
      exact hA
  · unfold pyStrip
    rw [List.reverse_reverse]
    exact hB

/-- The tail of the `clean_text` pipeline (backslash deletion onward)
never lets a backslash through. -/
theorem clean_tail_no_backslash (t : List Char) :
    '\\' ∉ pyStrip (wsCollapse (subJunkRunW (subMultiBangsW (subIsolatedBangsW
      ((pyReplaceW "\\".toList [] t).filter isPrintableKeep))))) := by
  intro h
  have h1 := mem_pyStrip _ _ h
  unfold wsCollapse at h1
  rcases mem_wsCollapseGo _ _ _ h1 with ⟨h2, _⟩ | h2
  · unfold subJunkRunW at h2
    rcases mem_subJunkRun _ _ _ h2 with h3 | h3
    · unfold subMultiBangsW at h3
      rcases mem_subMultiBangs _ _ _ h3 with h4 | h4
      · unfold subIsolatedBangsW at h4
        rcases mem_subIsolatedBangs _ _ _ h4 with h5 | h5
        · have h6 := (List.mem_filter.mp h5).1
          unfold pyReplaceW at h6
          exact backslash_not_mem_pyReplace _ _ (le_refl _) h6
        · exact absurd h5 (by decide)
      · exact absurd h4 (by decide)
    · exact absurd h3 (by decide)
  · exact absurd h2 (by decide)

/-- After whitespace collapsing and stripping, no whitespace character
other than the plain space survives. -/
theorem hard_ws_not_mem_wsStrip (t : List Char) (c : Char) (hc : isPySpace c = true)
    (hcs : c ≠ ' ') : c ∉ pyStrip (wsCollapse t) := by
  intro h
  have h1 := mem_pyStrip _ _ h
  unfold wsCollapse at h1
  rcases mem_wsCollapseGo _ _ _ h1 with ⟨_, h2⟩ | h2
  · rw [hc] at h2
    exact Bool.noConfusion h2
  · exact hcs h2

/-- Fuel does not matter for `stripSizeNum` once it covers the input
length. -/
theorem stripSizeNum_fuel_inv (k : Char) :
    ∀ (f1 f2 : Nat) (s : List Char), s.length ≤ f1 → s.length ≤ f2 →
      stripSizeNum f1 k s = stripSizeNum f2 k s := by
  intro f1
  induction f1 with
  | zero =>
    intro f2 s h1 _
    have : s = [] := List.length_eq_zero.mp (Nat.le_zero.mp h1)
    subst this
    cases f2 <;> rfl
  | succ n ih =>
    intro f2 s h1 h2
    cases s with
    | nil => cases f2 <;> rfl
    | cons c cs =>
      cases f2 with
      | zero => simp at h2
      | succ m =>
        have hcs1 : cs.length ≤ n := Nat.le_of_succ_le_succ h1
        have hcs2 : cs.length ≤ m := Nat.le_of_succ_le_succ h2
        have hall : ∀ l : List Char, (l.dropWhile Char.isDigit).length ≤ l.length :=
          fun l => (List.dropWhile_sublist _).length_le
        simp only [stripSizeNum]
        split
        · split
          · split
            · simp only [List.length_cons] at hcs1 hcs2
              refine ih m _ ?_ ?_
              · exact le_trans (hall _) (by omega)
              · exact le_trans (hall _) (by omega)
            · exact congrArg (c :: ·) (ih m _ hcs1 hcs2)
          all_goals exact congrArg (c :: ·) (ih m _ hcs1 hcs2)
        · exact congrArg (c :: ·) (ih m _ hcs1 hcs2)

/-- Fuel does not matter for `stripSizeLit` once it covers the input
length. -/
theorem stripSizeLit_fuel_inv (lit : List Char) :
    ∀ (f1 f2 : Nat) (s : List Char), s.length ≤ f1 → s.length ≤ f2 →
      stripSizeLit f1 lit s = stripSizeLit f2 lit s := by
  intro f1
  induction f1 with
  | zero =>
    intro f2 s h1 _
    have : s = [] := List.length_eq_zero.mp (Nat.le_zero.mp h1)
    subst this
    cases f2 <;> rfl
  | succ n ih =>
    intro f2 s h1 h2
    cases s with
    | nil => cases f2 <;> rfl
    | cons c cs =>
      cases f2 with
      | zero => simp at h2
      | succ m =>
        have hcs1 : cs.length ≤ n := Nat.le_of_succ_le_succ h1
        have hcs2 : cs.length ≤ m := Nat.le_of_succ_le_succ h2
        simp only [stripSizeLit]
        split
        · have hd := (List.drop_sublist lit.length cs).length_le
          exact ih m _ (by omega) (by omega)
        · exact congrArg (c :: ·) (ih m cs hcs1 hcs2)

theorem stripSizeNum_cons_noSep (k c : Char) (s : List Char) (hc : ¬(c = '?' ∨ c = '&')) :
    stripSizeNum (c :: s).length k (c :: s) = c :: stripSizeNum s.length k s := by
  have hc1 : c ≠ '?' := fun h => hc (Or.inl h)
  have hc2 : c ≠ '&' := fun h => hc (Or.inr h)
  simp only [stripSizeNum, List.length_cons]
  rw [if_neg (by simp [hc1, hc2])]

theorem stripSizeLit_cons_noSep (lit : List Char) (c : Char) (s : List Char)
    (hc : ¬(c = '?' ∨ c = '&')) :
    stripSizeLit (c :: s).length lit (c :: s) = c :: stripSizeLit s.length lit s := by
  have hc1 : c ≠ '?' := fun h => hc (Or.inl h)
  have hc2 : c ≠ '&' := fun h => hc (Or.inr h)
  simp only [stripSizeLit, List.length_cons]
  rw [if_neg (by simp [hc1, hc2])]

theorem stripSizeNum_append_noSep (k : Char) (xs : List Char) :
    ∀ ys : List Char, (∀ c ∈ xs, ¬(c = '?' ∨ c = '&')) →
      stripSizeNum (xs ++ ys).length k (xs ++ ys) = xs ++ stripSizeNum ys.length k ys := by
  induction xs with
  | nil => intro ys _; rfl
  | cons x xs' ih =>
    intro ys hx
    rw [List.cons_append]
    rw [stripSizeNum_cons_noSep k x (xs' ++ ys) (hx x (List.mem_cons_self _ _))]
    rw [ih ys (fun c hc => hx c (List.mem_cons_of_mem _ hc))]
    rfl

theorem stripSizeLit_append_noSep (lit : List Char) (xs : List Char) :
    ∀ ys : List Char, (∀ c ∈ xs, ¬(c = '?' ∨ c = '&')) →
      stripSizeLit (xs ++ ys).length lit (xs ++ ys) = xs ++ stripSizeLit ys.length lit ys := by
  induction xs with
  | nil => intro ys _; rfl
  | cons x xs' ih =>
    intro ys hx
    rw [List.cons_append]
    rw [stripSizeLit_cons_noSep lit x (xs' ++ ys) (hx x (List.mem_cons_self _ _))]
    rw [ih ys (fun c hc => hx c (List.mem_cons_of_mem _ hc))]
    rfl

theorem renderQueryFrom_amp_head_not_digit (ps : List SizeParam) :
    ∀ c : Char, (renderQueryFrom '&' ps).head? = some c → c.isDigit = false := by
  cases ps with
  | nil => intro c h; simp [renderQueryFrom] at h
  | cons p ps' =>
    intro c h
    have h2 : some '&' = some c := by rw [← h]; rfl
    injection h2 with h3
    subst h3
    decide

theorem splitDigits (ds R : List Char) (hds : ds.all Char.isDigit = true)
    (hR : ∀ c : Char, R.head? = some c → c.isDigit = false) :
    (ds ++ R).takeWhile Char.isDigit = ds ∧ (ds ++ R).dropWhile Char.isDigit = R := by
  have h1 : ∀ a ∈ ds, Char.isDigit a := fun a ha => List.all_eq_true.mp hds a ha
  constructor
  · rw [List.takeWhile_append_of_pos h1]
    cases R with
    | nil => simp
    | cons r rs =>
      rw [List.takeWhile_cons_of_neg (by simp [hR r rfl])]
      simp
  · rw [List.dropWhile_append_of_pos h1]
    cases R with
    | nil => simp
    | cons r rs =>
      rw [List.dropWhile_cons_of_neg (by simp [hR r rfl])]

/-- Rendered size parameters contain no query separators. -/
theorem noSep_renderSizeParam (p : SizeParam) (hvp : validSizeParam p = true) :
    ∀ c ∈ renderSizeParam p, ¬(c = '?' ∨ c = '&') := by
  cases p with
  | w ds =>
    intro c hc
    simp only [renderSizeParam, List.mem_cons] at hc
    simp only [validSizeParam, Bool.and_eq_true] at hvp
    rcases hc with rfl | rfl | hc
    · decide
    · decide
    · have hd := List.all_eq_true.mp hvp.2 c hc
      intro hor
      rcases hor with rfl | rfl <;> exact absurd hd (by decide)
  | h ds =>
    intro c hc
    simp only [renderSizeParam, List.mem_cons] at hc
    simp only [validSizeParam, Bool.and_eq_true] at hvp
    rcases hc with rfl | rfl | hc
    · decide
    · decide
    · have hd := List.all_eq_true.mp hvp.2 c hc
      intro hor
      rcases hor with rfl | rfl <;> exact absurd hd (by decide)
  | climit =>
    intro c hc
    have hall : ∀ c ∈ "c_limit".toList, ¬(c = '?' ∨ c = '&') := by decide
    exact hall c hc
  | cfill =>
    intro c hc
    have hall : ∀ c ∈ "c_fill".toList, ¬(c = '?' ∨ c = '&') := by decide
    exact hall c hc

/-- One scanner step over a separator that does not open a
`k=<digits>` match: the separator is kept and scanning continues. -/
theorem stripSizeNum_cons_sep_noMatch (k sep : Char) (hsep : sep = '?' ∨ sep = '&')
    (cs : List Char)
    (hnm : ∀ r : List Char, cs = k :: '=' :: r → (r.takeWhile Char.isDigit).isEmpty = true) :
    stripSizeNum (sep :: cs).length k (sep :: cs) = sep :: stripSizeNum cs.length k cs := by
  have hsepb : (sep = '?' || sep = '&') = true := by rcases hsep with rfl | rfl <;> rfl
  simp only [stripSizeNum, List.length_cons, hsepb, if_true]
  split
  · split
    · rename_i hcond
      rw [Bool.and_eq_true, decide_eq_true_eq] at hcond
      obtain ⟨hk2, hcond2⟩ := hcond
      subst hk2
      rw [hnm _ rfl] at hcond2
      exact absurd hcond2 (by decide)
    · rfl
  all_goals rfl

/-- One scanner step over a separator opening a `k=<digits>` match:
the separator, key and digits are consumed. -/
theorem stripSizeNum_cons_sep_match (k sep : Char) (hsep : sep = '?' ∨ sep = '&')
    (ds R : List Char) (hne : (!ds.isEmpty) = true) (hdig : ds.all Char.isDigit = true)
    (hR : ∀ c : Char, R.head? = some c → c.isDigit = false) :
    stripSizeNum (sep :: k :: '=' :: (ds ++ R)).length k (sep :: k :: '=' :: (ds ++ R)) =
      stripSizeNum R.length k R := by
  have hsepb : (sep = '?' || sep = '&') = true := by rcases hsep with rfl | rfl <;> rfl
  obtain ⟨htake, hdrop⟩ := splitDigits ds R hdig hR
  simp only [stripSizeNum, List.length_cons, hsepb, if_true, htake, hdrop, hne,
    decide_True, Bool.and_self, and_self]
  rw [stripSizeNum_fuel_inv k _ R.length R (by simp [List.length_append]; omega) (le_refl _)]

/-- One literal-strip step over a separator that does not open a match. -/
theorem stripSizeLit_cons_sep_noMatch (lit : List Char) (sep : Char)
    (_hsep : sep = '?' ∨ sep = '&') (cs : List Char)
    (hnm : lit.isPrefixOf cs = false) :
    stripSizeLit (sep :: cs).length lit (sep :: cs) = sep :: stripSizeLit cs.length lit cs := by
  simp only [stripSizeLit, List.length_cons]
  rw [if_neg]
  simp [hnm]

theorem isPrefixOf_append_self : ∀ (l t : List Char), l.isPrefixOf (l ++ t) = true := by
  intro l t
  induction l with
  | nil => simp [List.isPrefixOf]
  | cons a l' ih => simp [List.isPrefixOf, ih]

/-- One literal-strip step over a separator opening a match: the
separator and the literal are consumed. -/
theorem stripSizeLit_cons_sep_match (lit : List Char) (sep : Char)
    (hsep : sep = '?' ∨ sep = '&') (R : List Char) :
    stripSizeLit (sep :: (lit ++ R)).length lit (sep :: (lit ++ R)) =
      stripSizeLit R.length lit R := by
  have hsepb : (sep = '?' || sep = '&') = true := by rcases hsep with rfl | rfl <;> rfl
  simp only [stripSizeLit, List.length_cons]
  rw [if_pos]
  · rw [List.drop_left]
    exact stripSizeLit_fuel_inv lit _ _ R (by simp [List.length_append]) (le_refl _)
  · rw [Bool.and_eq_true, hsepb]
    exact ⟨rfl, isPrefixOf_append_self lit R⟩

/-- Stripping `[?&]w=\d+` from a rendered query removes exactly the
`w=` parameters; the result is the remaining parameters rendered with
the same head separator, or `&` when the head parameter was removed. -/
theorem stripW_query :
    ∀ (ps : List SizeParam) (sep : Char), (sep = '?' ∨ sep = '&') →
      ps.all validSizeParam = true →
      ∃ sep2, (sep2 = sep ∨ sep2 = '&') ∧
        stripSizeNum (renderQueryFrom sep ps).length 'w' (renderQueryFrom sep ps) =
          renderQueryFrom sep2 (ps.filter fun p => !isWParam p) := by
  intro ps
  induction ps with
  | nil => intro sep _ _; exact ⟨sep, Or.inl rfl, rfl⟩
  | cons p ps' ih =>
    intro sep hsep hval
    rw [List.all_cons, Bool.and_eq_true] at hval
    obtain ⟨hvp, hval'⟩ := hval
    obtain ⟨s2, hs2, hrec⟩ := ih '&' (Or.inr rfl) hval'
    have hs2e : s2 = '&' := by rcases hs2 with rfl | rfl <;> rfl
    subst hs2e
    have hsepb : (sep = '?' || sep = '&') = true := by
      rcases hsep with rfl | rfl <;> rfl
    cases p with
    | w ds =>
      refine ⟨'&', Or.inr rfl, ?_⟩
      simp only [validSizeParam, Bool.and_eq_true] at hvp
      have hrender : renderQueryFrom sep (SizeParam.w ds :: ps') =
          sep :: 'w' :: '=' :: (ds ++ renderQueryFrom '&' ps') := by
        simp [renderQueryFrom, renderSizeParam]
      rw [hrender,
        stripSizeNum_cons_sep_match 'w' sep hsep ds (renderQueryFrom '&' ps')
          hvp.1 hvp.2 (renderQueryFrom_amp_head_not_digit ps'),
        hrec]
      simp [List.filter_cons, isWParam]
    | h ds =>
      refine ⟨sep, Or.inl rfl, ?_⟩
      have hrender : renderQueryFrom sep (SizeParam.h ds :: ps') =
          sep :: (('h' :: '=' :: ds) ++ renderQueryFrom '&' ps') := by
        simp [renderQueryFrom, renderSizeParam]
      rw [hrender,
        stripSizeNum_cons_sep_noMatch 'w' sep hsep _
          (by intro r heq; rw [List.cons_append] at heq; simp at heq),
        stripSizeNum_append_noSep 'w' ('h' :: '=' :: ds) (renderQueryFrom '&' ps')
          (noSep_renderSizeParam (SizeParam.h ds) hvp),
        hrec]
      simp [renderQueryFrom, renderSizeParam, List.filter_cons, isHParam, isWParam]
    | climit =>
      refine ⟨sep, Or.inl rfl, ?_⟩
      have hrender : renderQueryFrom sep (SizeParam.climit :: ps') =
          sep :: ("c_limit".toList ++ renderQueryFrom '&' ps') := by
        simp [renderQueryFrom, renderSizeParam]
      rw [hrender,
        stripSizeNum_cons_sep_noMatch 'w' sep hsep _
          (by intro r heq; rw [show "c_limit".toList = 'c' :: "_limit".toList from rfl,
                List.cons_append] at heq; simp at heq),
        stripSizeNum_append_noSep 'w' "c_limit".toList (renderQueryFrom '&' ps')
          (noSep_renderSizeParam SizeParam.climit hvp),
        hrec]
      simp [renderQueryFrom, renderSizeParam, List.filter_cons, isWParam]
    | cfill =>
      refine ⟨sep, Or.inl rfl, ?_⟩
      have hrender : renderQueryFrom sep (SizeParam.cfill :: ps') =
          sep :: ("c_fill".toList ++ renderQueryFrom '&' ps') := by
        simp [renderQueryFrom, renderSizeParam]
      rw [hrender,
        stripSizeNum_cons_sep_noMatch 'w' sep hsep _
          (by intro r heq; rw [show "c_fill".toList = 'c' :: "_fill".toList from rfl,
                List.cons_append] at heq; simp at heq),
        stripSizeNum_append_noSep 'w' "c_fill".toList (renderQueryFrom '&' ps')
          (noSep_renderSizeParam SizeParam.cfill hvp),
        hrec]
      simp [renderQueryFrom, renderSizeParam, List.filter_cons, isWParam]

/-- Stripping `[?&]h=\d+` from a rendered query removes exactly the
`h=` parameters. -/
theorem stripH_query :
    ∀ (ps : List SizeParam) (sep : Char), (sep = '?' ∨ sep = '&') →
      ps.all validSizeParam = true →
      ∃ sep2, (sep2 = sep ∨ sep2 = '&') ∧
        stripSizeNum (renderQueryFrom sep ps).length 'h' (renderQueryFrom sep ps) =
          renderQueryFrom sep2 (ps.filter fun p => !isHParam p) := by
  intro ps
  induction ps with
  | nil => intro sep _ _; exact ⟨sep, Or.inl rfl, rfl⟩
  | cons p ps' ih =>
    intro sep hsep hval
    rw [List.all_cons, Bool.and_eq_true] at hval
    obtain ⟨hvp, hval'⟩ := hval
    obtain ⟨s2, hs2, hrec⟩ := ih '&' (Or.inr rfl) hval'
    have hs2e : s2 = '&' := by rcases hs2 with rfl | rfl <;> rfl
    subst hs2e
    cases p with
    | h ds =>
      refine ⟨'&', Or.inr rfl, ?_⟩
      simp only [validSizeParam, Bool.and_eq_true] at hvp
      have hrender : renderQueryFrom sep (SizeParam.h ds :: ps') =
          sep :: 'h' :: '=' :: (ds ++ renderQueryFrom '&' ps') := by
        simp [renderQueryFrom, renderSizeParam]
      rw [hrender,
        stripSizeNum_cons_sep_match 'h' sep hsep ds (renderQueryFrom '&' ps')
          hvp.1 hvp.2 (renderQueryFrom_amp_head_not_digit ps'),
        hrec]
      simp [List.filter_cons, isHParam]
    | w ds =>
      refine ⟨sep, Or.inl rfl, ?_⟩
      have hrender : renderQueryFrom sep (SizeParam.w ds :: ps') =
          sep :: (('w' :: '=' :: ds) ++ renderQueryFrom '&' ps') := by
        simp [renderQueryFrom, renderSizeParam]
      rw [hrender,
        stripSizeNum_cons_sep_noMatch 'h' sep hsep _
          (by intro r heq; rw [List.cons_append] at heq; simp at heq),
        stripSizeNum_append_noSep 'h' ('w' :: '=' :: ds) (renderQueryFrom '&' ps')
          (noSep_renderSizeParam (SizeParam.w ds) hvp),
        hrec]
      simp [renderQueryFrom, renderSizeParam, List.filter_cons, isHParam, isWParam]
    | climit =>
      refine ⟨sep, Or.inl rfl, ?_⟩
      have hrender : renderQueryFrom sep (SizeParam.climit :: ps') =
          sep :: ("c_limit".toList ++ renderQueryFrom '&' ps') := by
        simp [renderQueryFrom, renderSizeParam]
      rw [hrender,
        stripSizeNum_cons_sep_noMatch 'h' sep hsep _
          (by intro r heq; rw [show "c_limit".toList = 'c' :: "_limit".toList from rfl,
                List.cons_append] at heq; simp at heq),
        stripSizeNum_append_noSep 'h' "c_limit".toList (renderQueryFrom '&' ps')
          (noSep_renderSizeParam SizeParam.climit hvp),
        hrec]
      simp [renderQueryFrom, renderSizeParam, List.filter_cons, isHParam]
    | cfill =>
      refine ⟨sep, Or.inl rfl, ?_⟩
      have hrender : renderQueryFrom sep (SizeParam.cfill :: ps') =
          sep :: ("c_fill".toList ++ renderQueryFrom '&' ps') := by
        simp [renderQueryFrom, renderSizeParam]
      rw [hrender,
        stripSizeNum_cons_sep_noMatch 'h' sep hsep _
          (by intro r heq; rw [show "c_fill".toList = 'c' :: "_fill".toList from rfl,
                List.cons_append] at heq; simp at heq),
        stripSizeNum_append_noSep 'h' "c_fill".toList (renderQueryFrom '&' ps')
          (noSep_renderSizeParam SizeParam.cfill hvp),
        hrec]
      simp [renderQueryFrom, renderSizeParam, List.filter_cons, isHParam]

/-- Stripping `[?&]c_limit` from a rendered query removes exactly the
`c_limit` parameters. -/
theorem stripClimit_query :
    ∀ (ps : List SizeParam) (sep : Char), (sep = '?' ∨ sep = '&') →
      ps.all validSizeParam = true →
      ∃ sep2, (sep2 = sep ∨ sep2 = '&') ∧
        stripSizeLit (renderQueryFrom sep ps).length "c_limit".toList
            (renderQueryFrom sep ps) =
          renderQueryFrom sep2 (ps.filter fun p => !isClimitParam p) := by
  intro ps
  induction ps with
  | nil => intro sep _ _; exact ⟨sep, Or.inl rfl, rfl⟩
  | cons p ps' ih =>
    intro sep hsep hval
    rw [List.all_cons, Bool.and_eq_true] at hval
    obtain ⟨hvp, hval'⟩ := hval
    obtain ⟨s2, hs2, hrec⟩ := ih '&' (Or.inr rfl) hval'
    have hs2e : s2 = '&' := by rcases hs2 with rfl | rfl <;> rfl
    subst hs2e
    cases p with
    | climit =>
      refine ⟨'&', Or.inr rfl, ?_⟩
      have hrender : renderQueryFrom sep (SizeParam.climit :: ps') =
          sep :: ("c_limit".toList ++ renderQueryFrom '&' ps') := by
        simp [renderQueryFrom, renderSizeParam]
      rw [hrender,
        stripSizeLit_cons_sep_match "c_limit".toList sep hsep (renderQueryFrom '&' ps'),
        hrec]
      simp [List.filter_cons, isClimitParam]
    | w ds =>
      refine ⟨sep, Or.inl rfl, ?_⟩
      have hrender : renderQueryFrom sep (SizeParam.w ds :: ps') =
          sep :: (('w' :: '=' :: ds) ++ renderQueryFrom '&' ps') := by
        simp [renderQueryFrom, renderSizeParam]
      rw [hrender,
        stripSizeLit_cons_sep_noMatch "c_limit".toList sep hsep
          (('w' :: '=' :: ds) ++ renderQueryFrom '&' ps') rfl,
        stripSizeLit_append_noSep "c_limit".toList ('w' :: '=' :: ds)
          (renderQueryFrom '&' ps') (noSep_renderSizeParam (SizeParam.w ds) hvp),
        hrec]
      simp [renderQueryFrom, renderSizeParam, List.filter_cons, isClimitParam, isWParam]
    | h ds =>
      refine ⟨sep, Or.inl rfl, ?_⟩
      have hrender : renderQueryFrom sep (SizeParam.h ds :: ps') =
          sep :: (('h' :: '=' :: ds) ++ renderQueryFrom '&' ps') := by
        simp [renderQueryFrom, renderSizeParam]
      rw [hrender,
        stripSizeLit_cons_sep_noMatch "c_limit".toList sep hsep
          (('h' :: '=' :: ds) ++ renderQueryFrom '&' ps') rfl,
        stripSizeLit_append_noSep "c_limit".toList ('h' :: '=' :: ds)
          (renderQueryFrom '&' ps') (noSep_renderSizeParam (SizeParam.h ds) hvp),
        hrec]
      simp [renderQueryFrom, renderSizeParam, List.filter_cons, isClimitParam]
    | cfill =>
      refine ⟨sep, Or.inl rfl, ?_⟩
      have hrender : renderQueryFrom sep (SizeParam.cfill :: ps') =
          sep :: ("c_fill".toList ++ renderQueryFrom '&' ps') := by
        simp [renderQueryFrom, renderSizeParam]
      rw [hrender,
        stripSizeLit_cons_sep_noMatch "c_limit".toList sep hsep
          ("c_fill".toList ++ renderQueryFrom '&' ps') rfl,
        stripSizeLit_append_noSep "c_limit".toList "c_fill".toList
          (renderQueryFrom '&' ps') (noSep_renderSizeParam SizeParam.cfill hvp),
        hrec]
      simp [renderQueryFrom, renderSizeParam, List.filter_cons, isClimitParam]

/-- Stripping `[?&]c_fill` from a rendered query removes exactly the
`c_fill` parameters. -/
theorem stripCfill_query :
    ∀ (ps : List SizeParam) (sep : Char), (sep = '?' ∨ sep = '&') →
      ps.all validSizeParam = true →
      ∃ sep2, (sep2 = sep ∨ sep2 = '&') ∧
        stripSizeLit (renderQueryFrom sep ps).length "c_fill".toList
            (renderQueryFrom sep ps) =
          renderQueryFrom sep2 (ps.filter fun p => !isCfillParam p) := by
  intro ps
  induction ps with
  | nil => intro sep _ _; exact ⟨sep, Or.inl rfl, rfl⟩
  | cons p ps' ih =>
    intro sep hsep hval
    rw [List.all_cons, Bool.and_eq_true] at hval
    obtain ⟨hvp, hval'⟩ := hval
    obtain ⟨s2, hs2, hrec⟩ := ih '&' (Or.inr rfl) hval'
    have hs2e : s2 = '&' := by rcases hs2 with rfl | rfl <;> rfl
    subst hs2e
    cases p with
    | cfill =>
      refine ⟨'&', Or.inr rfl, ?_⟩
      have hrender : renderQueryFrom sep (SizeParam.cfill :: ps') =
          sep :: ("c_fill".toList ++ renderQueryFrom '&' ps') := by
        simp [renderQueryFrom, renderSizeParam]
      rw [hrender,
        stripSizeLit_cons_sep_match "c_fill".toList sep hsep (renderQueryFrom '&' ps'),
        hrec]
      simp [List.filter_cons, isCfillParam]
    | w ds =>
      refine ⟨sep, Or.inl rfl, ?_⟩
      have hrender : renderQueryFrom sep (SizeParam.w ds :: ps') =
          sep :: (('w' :: '=' :: ds) ++ renderQueryFrom '&' ps') := by
        simp [renderQueryFrom, renderSizeParam]
      rw [hrender,
        stripSizeLit_cons_sep_noMatch "c_fill".toList sep hsep
          (('w' :: '=' :: ds) ++ renderQueryFrom '&' ps') rfl,
        stripSizeLit_append_noSep "c_fill".toList ('w' :: '=' :: ds)
          (renderQueryFrom '&' ps') (noSep_renderSizeParam (SizeParam.w ds) hvp),
        hrec]
      simp [renderQueryFrom, renderSizeParam, List.filter_cons, isCfillParam, isWParam]
    | h ds =>
      refine ⟨sep, Or.inl rfl, ?_⟩
      have hrender : renderQueryFrom sep (SizeParam.h ds :: ps') =
          sep :: (('h' :: '=' :: ds) ++ renderQueryFrom '&' ps') := by
        simp [renderQueryFrom, renderSizeParam]
      rw [hrender,
        stripSizeLit_cons_sep_noMatch "c_fill".toList sep hsep
          (('h' :: '=' :: ds) ++ renderQueryFrom '&' ps') rfl,
        stripSizeLit_append_noSep "c_fill".toList ('h' :: '=' :: ds)
          (renderQueryFrom '&' ps') (noSep_renderSizeParam (SizeParam.h ds) hvp),
        hrec]
      simp [renderQueryFrom, renderSizeParam, List.filter_cons, isCfillParam]
    | climit =>
      refine ⟨sep, Or.inl rfl, ?_⟩
      have hrender : renderQueryFrom sep (SizeParam.climit :: ps') =
          sep :: ("c_limit".toList ++ renderQueryFrom '&' ps') := by
        simp [renderQueryFrom, renderSizeParam]
      rw [hrender,
        stripSizeLit_cons_sep_noMatch "c_fill".toList sep hsep
          ("c_limit".toList ++ renderQueryFrom '&' ps') rfl,
        stripSizeLit_append_noSep "c_fill".toList "c_limit".toList
          (renderQueryFrom '&' ps') (noSep_renderSizeParam SizeParam.climit hvp),
        hrec]
      simp [renderQueryFrom, renderSizeParam, List.filter_cons, isCfillParam]

theorem all_filter_of_all {ps : List SizeParam} (q : SizeParam → Bool)
    (h : ps.all validSizeParam = true) : (ps.filter q).all validSizeParam = true := by
  rw [List.all_eq_true] at h ⊢
  intro p hp
  exact h p (List.mem_filter.mp hp).1

/-- The four query strips of `extract_base_image_url` together remove
a query consisting solely of size/crop parameters, leaving the bare
base URL. -/
theorem stripSizeParams_query (base : List Char) (ps : List SizeParam)
    (hbase : ∀ c ∈ base, ¬(c = '?' ∨ c = '&'))
    (hval : ps.all validSizeParam = true) :
    stripSizeParams (base ++ renderQuery ps) = base := by
  obtain ⟨s1, hs1, e1⟩ := stripW_query ps '?' (Or.inl rfl) hval
  have hs1' : s1 = '?' ∨ s1 = '&' := hs1
  have hval1 := all_filter_of_all (fun p => !isWParam p) hval
  obtain ⟨s2, hs2, e2⟩ := stripH_query _ s1 hs1' hval1
  have hs2' : s2 = '?' ∨ s2 = '&' := by
    rcases hs2 with rfl | rfl
    · exact hs1'
    · exact Or.inr rfl
  have hval2 := all_filter_of_all (fun p => !isHParam p) hval1
  obtain ⟨s3, hs3, e3⟩ := stripClimit_query _ s2 hs2' hval2
  have hs3' : s3 = '?' ∨ s3 = '&' := by
    rcases hs3 with rfl | rfl
    · exact hs2'
    · exact Or.inr rfl
  have hval3 := all_filter_of_all (fun p => !isClimitParam p) hval2
  obtain ⟨s4, _, e4⟩ := stripCfill_query _ s3 hs3' hval3
  have hnil : ((((ps.filter fun p => !isWParam p).filter fun p => !isHParam p).filter
      fun p => !isClimitParam p).filter fun p => !isCfillParam p) = [] := by
    rw [List.filter_eq_nil_iff]
    intro p hp
    have h3 := List.mem_filter.mp hp
    have h2 := List.mem_filter.mp h3.1
    have h1 := List.mem_filter.mp h2.1
    cases p <;> simp_all [isWParam, isHParam, isClimitParam, isCfillParam]
  simp only [stripSizeParams, renderQuery]
  rw [stripSizeNum_append_noSep 'w' base _ hbase, e1,
    stripSizeNum_append_noSep 'h' base _ hbase, e2,
    stripSizeLit_append_noSep "c_limit".toList base _ hbase, e3,
    stripSizeLit_append_noSep "c_fill".toList base _ hbase, e4,
    hnil]
  simp [renderQueryFrom]

/-- Under the stability hypotheses, the derived key of a URL whose
query consists solely of size/crop parameters is the bare base URL. -/
theorem extract_base_image_url_query (base : List Char) (ps : List SizeParam)
    (hbase : ∀ c ∈ base, ¬(c = '?' ∨ c = '&'))
    (hval : ps.all validSizeParam = true)
    (hcdn : hasSubstr "substackcdn.com".toList (base ++ renderQuery ps) = false) :
    extract_base_image_url (base ++ renderQuery ps) = base := by
  by_cases hEmpty : (base ++ renderQuery ps).isEmpty = true
  · have h0 : base ++ renderQuery ps = [] := List.isEmpty_iff.mp hEmpty
    have hb : base = [] := (List.append_eq_nil.mp h0).1
    rw [h0]
    simp [extract_base_image_url, hb]
  · have h2 : (base ++ renderQuery ps).isEmpty = false := Bool.eq_false_iff.mpr hEmpty
    simp only [extract_base_image_url, h2, hcdn, Bool.false_eq_true, if_false]
    exact stripSizeParams_query base ps hbase hval

/-- C4 (amended): `extract_base_image_url` is stable under reordering,
addition or removal of the size/crop query parameters `w=`, `h=`,
`c_limit`, `c_fill` for URLs whose query string consists solely of
those parameters (and which are not Substack CDN URLs): any two such
queries over the same base reduce to the same key, the bare base URL.
As stated over arbitrary URLs the claim fails — when another query
parameter is present the strip leaves a position-dependent `?`/`&`
separator behind (see the counterexample). -/
theorem extract_base_image_url_param_stable :
    ∀ (base : List Char) (ps1 ps2 : List SizeParam),
      (∀ c ∈ base, ¬(c = '?' ∨ c = '&')) →
      ps1.all validSizeParam = true → ps2.all validSizeParam = true →
      hasSubstr "substackcdn.com".toList (base ++ renderQuery ps1) = false →
      hasSubstr "substackcdn.com".toList (base ++ renderQuery ps2) = false →
      extract_base_image_url (base ++ renderQuery ps1) =
        extract_base_image_url (base ++ renderQuery ps2) := by
  intro base ps1 ps2 hbase h1 h2 hc1 hc2
  rw [extract_base_image_url_query base ps1 hbase h1 hc1,
    extract_base_image_url_query base ps2 hbase h2 hc2]

/-- C4 witness: the same base with `?w=100&c_limit` and with
`?c_limit&h=50&w=100` receives the same key. -/
theorem extract_base_image_url_param_stable_witness :
    extract_base_image_url ("http://img.example/pic.png".toList ++
        renderQuery [SizeParam.w "100".toList, SizeParam.climit]) =
      extract_base_image_url ("http://img.example/pic.png".toList ++
        renderQuery [SizeParam.climit, SizeParam.h "50".toList, SizeParam.w "100".toList]) :=
  extract_base_image_url_param_stable _ _ _ (by decide) (by decide) (by decide)
    (by decide) (by decide)

/-- C9: for every input, the output of `clean_text` contains no
backslash, newline, or tab character, and carries no leading or
trailing whitespace: every backslash is deleted at source line 389 and
never reintroduced, the whitespace collapse of line 400 replaces every
whitespace run (newlines and tabs included) by one space, and line 401
strips the ends. -/
theorem clean_text_output_clean :
    ∀ s : List Char,
      '\\' ∉ clean_text s ∧ '\n' ∉ clean_text s ∧ '\t' ∉ clean_text s ∧
      trimmedOK (clean_text s) = true := by
  intro s
  by_cases hs : s.isEmpty = true
  · have : s = [] := List.isEmpty_iff.mp hs
    subst this
    refine ⟨?_, ?_, ?_, ?_⟩ <;> simp [clean_text, trimmedOK, headIsWs]
  · have hs2 : s.isEmpty = false := Bool.eq_false_iff.mpr hs
    simp only [clean_text, hs2, Bool.false_eq_true, if_false]
    exact ⟨clean_tail_no_backslash _,
      hard_ws_not_mem_wsStrip _ _ (by decide) (by decide),
      hard_ws_not_mem_wsStrip _ _ (by decide) (by decide),
      trimmedOK_pyStrip _⟩

end RssToPdf
